import Mathlib

/-!
Verification of the graffiti-mongoose core: the filter/sort compiler over
GraphQL selection trees, the per-field argument deriver, the type-cache
identity handling of `getTypes`, and the hook-composition wrapper.

The JavaScript sources are embedded shallowly: JavaScript values become
`JSVal`, value-literal AST nodes become `AstNode`, selection trees become
`Selection`/`SelList`, and the compiler functions become fuel-indexed Lean
functions returning `Except String _` (a thrown exception is `.error`).
The fuel only bounds recursion depth; every statement below either holds
for all fuels or fixes a fuel large enough for the input at hand.
-/

set_option maxRecDepth 4000

namespace Graffiti

/-- JavaScript runtime values as far as this code base manipulates them.
Numbers are modelled as rationals together with an explicit NaN;
`undef` is the JavaScript `undefined`. -/
inductive JSVal where
  | undef
  | vnull
  | vbool (b : Bool)
  | vnum (q : Rat)
  | vnan
  | vstr (s : String)
  | vlist (l : List JSVal)

/-- JavaScript truthiness: `undefined`, `null`, `false`, `0`, `NaN` and the
empty string are falsy; every object (hence every array) is truthy. -/
def truthy : JSVal → Bool
  | .undef => false
  | .vnull => false
  | .vbool b => b
  | .vnum q => decide (q ≠ 0)
  | .vnan => false
  | .vstr s => decide (s ≠ "")
  | .vlist _ => true

/-- Longest digit run at the front of a character list, with the rest. -/
def takeDigits : List Char → List Char × List Char
  | [] => ([], [])
  | c :: cs =>
    if c.isDigit then
      let (d, r) := takeDigits cs
      (c :: d, r)
    else ([], c :: cs)

def natOfDigits (l : List Char) : Nat :=
  l.foldl (fun a c => a * 10 + (c.toNat - 48)) 0

/-- JavaScript `parseInt(s, 10)` on the string shapes that occur here: an
optional sign followed by decimal digits, parsing stopping at the first
non-digit character; `none` stands for the NaN result. -/
def parseIntJS (s : String) : Option Int :=
  let step : Bool × List Char → Option Int := fun (neg, cs) =>
    let (d, _) := takeDigits cs
    if d.isEmpty then none
    else some (if neg then -(natOfDigits d : Int) else (natOfDigits d : Int))
  match s.toList with
  | '-' :: t => step (true, t)
  | '+' :: t => step (false, t)
  | t => step (false, t)

/-- The exponent part accepted by `parseFloat` (absent or malformed
exponents contribute a factor of one, as parsing just stops there). -/
def parseExp (cs : List Char) : Int :=
  let step : Bool × List Char → Int := fun (neg, t) =>
    let (d, _) := takeDigits t
    if d.isEmpty then 0
    else if neg then -(natOfDigits d : Int) else (natOfDigits d : Int)
  match cs with
  | 'e' :: t | 'E' :: t =>
    (match t with
     | '-' :: r => step (true, r)
     | '+' :: r => step (false, r)
     | r => step (false, r))
  | _ => 0

/-- JavaScript `parseFloat` on decimal literals (the shape of every GraphQL
float literal): sign, integer part, optional fraction, optional exponent;
`none` stands for NaN. -/
def parseFloatJS (s : String) : Option Rat :=
  let core : List Char → Option Rat := fun cs =>
    let (ip, r1) := takeDigits cs
    let (fp, r2) :=
      match r1 with
      | '.' :: t => takeDigits t
      | _ => ([], r1)
    if ip.isEmpty && fp.isEmpty then none
    else
      let ex := parseExp r2
      some (((natOfDigits ip : Rat) + (natOfDigits fp : Rat) / ((10 : Rat) ^ fp.length))
        * (10 : Rat) ^ ex)
  match s.toList with
  | '-' :: t => (core t).map (fun q => -q)
  | '+' :: t => core t
  | t => core t

/-- JavaScript string coercion for the value shapes that reach it in this
code (the `op` key template and `parseInt` coercion). Arrays stringify by
joining their elements; no verified statement depends on that corner, so
the join is elided. -/
def jsToString : JSVal → String
  | .undef => "undefined"
  | .vnull => "null"
  | .vbool b => if b then "true" else "false"
  | .vnum q => if q.den = 1 then toString q.num else toString q
  | .vnan => "NaN"
  | .vstr s => s
  | .vlist _ => ""

/-- JavaScript `parseInt(v, 10)` applied to an arbitrary value: JavaScript coerces to
string first. Integral numbers round-trip; a fractional number prints with
a decimal point at which parsing stops, i.e. truncation toward zero.
Arrays are not exercised by any verified statement and map to NaN. -/
def parseIntOfJS : JSVal → Option Int
  | .vnum q => some (q.num.tdiv (q.den : Int))
  | .vstr s => parseIntJS s
  | _ => none

/-- GraphQL value-literal AST nodes as the compiler destructures them
(`kind`, `name.value`, `value`, `values`). `otherN` covers object and
object-field nodes, whose raw `value` is passed through. -/
inductive AstNode where
  | variableN (name : String)
  | intN (value : String)
  | floatN (value : String)
  | stringN (value : String)
  | boolN (value : Bool)
  | nullN
  | listN (values : List AstNode)
  | enumN (value : String)
  | otherN (value : JSVal)

/-- The `value` property of a value node, read as a JavaScript value
(`node.value.value` style access): literal nodes store their payload
there, while variable, null and list nodes have no such property. -/
def AstNode.jsValueField : AstNode → JSVal
  | .variableN _ => .undef
  | .intN s => .vstr s
  | .floatN s => .vstr s
  | .stringN s => .vstr s
  | .enumN s => .vstr s
  | .boolN b => .vbool b
  | .nullN => .undef
  | .listN _ => .undef
  | .otherN v => v

/-- One argument node of a selected field. -/
structure Arg where
  name : String
  value : AstNode

/-- The selection kinds the compiler switches on; `otherKind` is any other
AST kind. -/
inductive SelKind where
  | field
  | inlineFragment
  | fragmentSpread
  | otherKind
  deriving DecidableEq

mutual
/-- A selection-tree node: its kind, its (possibly absent) name node, its
argument list and its (possibly absent) selection set. Inline fragments of
real ASTs carry no name. -/
inductive Selection where
  | mk (kind : SelKind) (name : Option String) (arguments : List Arg)
      (selectionSet : Option SelList)
/-- Selection lists, kept as a dedicated type so that structural recursion
over the tree stays elementary. -/
inductive SelList where
  | nil
  | cons (head : Selection) (tail : SelList)
end

def Selection.kind : Selection → SelKind
  | .mk k _ _ _ => k

def Selection.name : Selection → Option String
  | .mk _ n _ _ => n

def Selection.arguments : Selection → List Arg
  | .mk _ _ a _ => a

def Selection.selectionSet : Selection → Option SelList
  | .mk _ _ _ s => s

def SelList.append : SelList → SelList → SelList
  | .nil, l => l
  | .cons a t, l => .cons a (t.append l)

def SelList.length : SelList → Nat
  | .nil => 0
  | .cons _ t => t.length + 1

/-- The `reduce` collecting all `selectionSet.selections` of the node
list: nodes without a selection set contribute nothing. -/
def collectSels : SelList → SelList
  | .nil => .nil
  | .cons s rest =>
    (match s.selectionSet with
     | some l => l
     | none => .nil).append (collectSels rest)

/-- The resolver context: the request's root field nodes, the named
fragment table, and the coerced variable bindings. -/
structure Info where
  fieldNodes : SelList
  fragments : List (String × Selection)
  variableValues : List (String × JSVal)

/-- The function `parseValue(info, node)` from the utilities module (the two-argument
version). The `Kind.LIST` branch runs `values.map(parseValue)`: `map`
passes each element as the first parameter (`info`) and the element's
numeric index as the second parameter, so destructuring the index yields
`undefined` for `kind` and `value` and the default branch returns
`undefined` for every element. -/
def parseValue (info : Info) : AstNode → JSVal
  | .variableN n => (info.variableValues.lookup n).getD .undef
  | .intN s =>
    (match parseIntJS s with
     | some n => .vnum (n : Rat)
     | none => .vnan)
  | .floatN s =>
    (match parseFloatJS s with
     | some q => .vnum q
     | none => .vnan)
  | .stringN s => .vstr s
  | .boolN b => .vbool b
  | .nullN => .vnull
  | .listN vs => .vlist (vs.map (fun _ => JSVal.undef))
  | .enumN s => .vstr s
  | .otherN v => v

/-- JavaScript object-spread update on an association list: an existing
key keeps its position and receives the new value, a new key is
appended. -/
def jsInsert {α : Type} (l : List (String × α)) (k : String) (v : α) :
    List (String × α) :=
  if l.any (fun p => p.1 == k) then
    l.map (fun p => if p.1 == k then (k, v) else p)
  else l ++ [(k, v)]

/-- Object spread `{...l, ...m}`: fold the second object's entries into the first. -/
def jsAssign {α : Type} (l : List (String × α)) : List (String × α) → List (String × α)
  | [] => l
  | (k, v) :: rest => jsAssign (jsInsert l k v) rest

/-- A compiled filter entry for one path: either a single comparison
clause object such as `{$gt: 5}` or a logical combinator object
`{$op: [clauses]}` (the stored string is the full object key). -/
inductive FilterVal where
  | single (clause : String × JSVal)
  | combo (key : String) (clauses : List (String × JSVal))

abbrev FilterObj := List (String × FilterVal)

/-- The comparison-argument names recognised by the compiler. -/
def names : List String := ["eq", "gt", "gte", "lt", "lte", "ne", "in", "nin"]

/-- The `filters` computation of the `Field` branch: one `{$name: parsed}`
clause per comparison argument, in argument order. -/
def comparisonFilters (info : Info) (args : List Arg) : List (String × JSVal) :=
  (args.filter (fun a => names.contains a.name)).map
    (fun a => ("$" ++ a.name, parseValue info a.value))

/-- The `op` extraction of the `Field` branch: the raw `value.value` of
the `op` argument, defaulting to the string `and`. -/
def opOf (args : List Arg) : String :=
  match args.find? (fun a => a.name == "op") with
  | some a => jsToString a.value.jsValueField
  | none => "and"

/-- The `config` computation of the `Field` branch: no comparison argument
yields no entry, one clause is placed directly at the field's dotted path,
and several clauses are wrapped in the logical combinator keyed by
`$` + `op`. -/
def fieldFilterConfig (info : Info) (path : String) (args : List Arg) : FilterObj :=
  let filters := comparisonFilters info args
  if filters.length > 0 then
    [(path,
      if filters.length > 1 then FilterVal.combo ("$" ++ opOf args) filters
      else FilterVal.single (filters.headD ("", .undef)))]
  else []

def unsupportedMsg : String := "Unsuported query selection"

/-- The dotted-path computation `(parentName ? parentName + '.' : '') + name.value`. -/
def pathPre (parentName : Option String) : String :=
  match parentName with
  | some p => p ++ "."
  | none => ""

/-- The statement `const prefix = (parentName ? parentName + '.' : '') + name.value;`
runs before the kind switch, so a node without a name node throws this for
every kind, inline fragments included. -/
def nameTypeErrorMsg : String := "TypeError: Cannot read property value of undefined"

mutual
/-- The compiler entry `getFilterObject(info, fieldNodes, parentName)` (the dotted-path
version, the second occurrence in the sources). A `none` second argument
is the JavaScript `undefined` and falls back to `info.fieldNodes`, which
is also what happens when a fragment-spread name misses the fragment
table. -/
def getFilterObject (fuel : Nat) (info : Option Info) (fieldNodes : Option SelList)
    (parentName : Option String) : Except String FilterObj :=
  match fuel with
  | 0 => .error "fuel"
  | fuel + 1 =>
    match info with
    | none => .ok []
    | some i =>
      let nodes := fieldNodes.getD i.fieldNodes
      goFilter fuel i (collectSels nodes) parentName []

/-- The body of the `selections.reduce` fold of `getFilterObject`. -/
def goFilter (fuel : Nat) (i : Info) (sels : SelList) (parentName : Option String)
    (acc : FilterObj) : Except String FilterObj :=
  match fuel with
  | 0 => .error "fuel"
  | fuel + 1 =>
    match sels with
    | .nil => .ok acc
    | .cons ast rest =>
      match ast.name with
      | none => .error nameTypeErrorMsg
      | some nm =>
        let path := pathPre parentName ++ nm
        match ast.kind with
        | .field => do
          let sub ← getFilterObject fuel (some i) (some (SelList.cons ast .nil)) (some path)
          let config := fieldFilterConfig i path ast.arguments
          goFilter fuel i rest parentName (jsAssign (jsAssign acc sub) config)
        | .inlineFragment => do
          let sub ← getFilterObject fuel (some i) (some (SelList.cons ast .nil)) (some path)
          goFilter fuel i rest parentName (jsAssign acc sub)
        | .fragmentSpread => do
          let sub ← getFilterObject fuel (some i)
            ((i.fragments.lookup nm).map (fun f => SelList.cons f SelList.nil)) (some path)
          goFilter fuel i rest parentName (jsAssign acc sub)
        | .otherKind => .error unsupportedMsg
end

/-! ## The sort compiler

`getSortObject` (the dotted-path version) accumulates an array of
candidate entries, but two of its branches mix the array up with plain
objects: the branch for a field without a `sort` argument returns
`{...list, ...getSortObject(info, ast)}` (object spread over the array
accumulator, and the recursive call drops the path), and the branches with
recursion inside an array literal spread the recursive call's plain-object
result there. The package is authored as ES modules and runs through the
upstream Babel toolchain, whose spread helper falls back to `Array.from`
for non-array operands: spreading a plain object into an array literal
contributes no elements, and spreading an array into an object literal
contributes its index-keyed pairs. The embedding follows that transpiled
semantics. -/

/-- JavaScript relational comparison on integers. -/
def cmpInt (a b : Int) : Ordering :=
  if a < b then .lt else if b < a then .gt else .eq

/-- JavaScript relational comparison on strings: code-unit lexicographic. -/
def cmpCharList : List Char → List Char → Ordering
  | [], [] => .eq
  | [], _ :: _ => .lt
  | _ :: _, [] => .gt
  | a :: as_, b :: bs =>
    match cmpInt a.toNat b.toNat with
    | .eq => cmpCharList as_ bs
    | o => o

def cmpStr (a b : String) : Ordering :=
  cmpCharList a.toList b.toList

/-- A sort-criterion key as lodash `compareAscending` sees it: a finite
number, `Infinity` (absent `sortOrder`), a string (the path), a missing
property (`undefined`, from a plain number sitting in the collection), or
`NaN` (unparseable `sortOrder`). -/
inductive SKey where
  | fin (n : Int)
  | inf
  | strK (s : String)
  | undefK
  | nanK
  deriving DecidableEq

/-- lodash `compareAscending`, restricted to the key shapes above.
Ascending placement: finite numbers, then `Infinity`, then `undefined`,
then `NaN` (non-reflexive values go last; two `NaN`s compare as greater in
both directions, a lodash artifact no verified statement relies on).
A number against a string compares equal, as both JavaScript relational
tests are false. -/
def cmpSKey : SKey → SKey → Ordering
  | .fin a, .fin b => cmpInt a b
  | .strK a, .strK b => cmpStr a b
  | .inf, .inf => .eq
  | .fin _, .inf => .lt
  | .inf, .fin _ => .gt
  | .nanK, _ => .gt
  | _, .nanK => .lt
  | .undefK, .undefK => .eq
  | .undefK, _ => .gt
  | _, .undefK => .lt
  | _, _ => .eq

/-- One collected sort candidate: `{name: prefix, value: direction,
order: priority}`. -/
structure Candidate where
  name : String
  value : Int
  order : SKey

/-- A value of the heterogeneous sort collection: a candidate entry, or a
bare direction number coming from a recursively compiled mapping that was
spread into the object accumulator. -/
inductive SVal where
  | cand (c : Candidate)
  | dir (n : Int)

def SVal.orderKey : SVal → SKey
  | .cand c => c.order
  | .dir _ => .undefK

def SVal.nameKey : SVal → SKey
  | .cand c => .strK c.name
  | .dir _ => .undefK

def SVal.valueKey : SVal → SKey
  | .cand c => .fin c.value
  | .dir _ => .undefK

/-- lodash `compareMultiple` over the iteratees `['order','name','value']`,
all ascending. -/
def cmpSVal (a b : SVal) : Ordering :=
  match cmpSKey a.orderKey b.orderKey with
  | .eq =>
    (match cmpSKey a.nameKey b.nameKey with
     | .eq => cmpSKey a.valueKey b.valueKey
     | o => o)
  | o => o

/-- Stable insertion: the new element moves left exactly past the elements
strictly greater than it, so equal elements keep their encounter order. -/
def insertSV (x : SVal) : List SVal → List SVal
  | [] => [x]
  | y :: ys => if cmpSVal y x = .gt then x :: y :: ys else y :: insertSV x ys

/-- lodash `orderBy(l, ['order','name','value'], ['asc'])` as a stable
insertion sort (lodash's sort is stable, and for a consistent comparator
every stable sort produces the same list). -/
def orderBySV (l : List SVal) : List SVal :=
  l.foldl (fun acc x => insertSV x acc) []

/-- The accumulator of the sort fold: the array shape, or the plain-object
shape it degrades to after a field without a `sort` argument. -/
inductive SortAcc where
  | arr (l : List Candidate)
  | obj (l : List (String × SVal))

/-- The `Array.from` view of the accumulator, as the transpiled array spread sees
it: a plain object contributes nothing. -/
def SortAcc.toArray : SortAcc → List Candidate
  | .arr l => l
  | .obj _ => []

/-- Object spread of the accumulator: an array contributes its index-keyed
pairs (its non-enumerable `length` is not copied). -/
def SortAcc.toPairs : SortAcc → List (String × SVal)
  | .arr l => (l.enum.map (fun p => (toString p.1, SVal.cand p.2)))
  | .obj l => l

/-- The values of the collection handed to `orderBy`: lodash iterates an
array's elements or a plain object's own values. -/
def SortAcc.values : SortAcc → List SVal
  | .arr l => l.map SVal.cand
  | .obj l => l.map (fun p => p.2)

/-- The final fold `orderBy(...).reduce((sorts, it) => it.name ? {...sorts,
[it.name]: it.value} : sorts, {})`: a bare number has no `name` and is
dropped; an entry with a truthy name overwrites any earlier entry at that
path. -/
def foldSorted (l : List SVal) : List (String × Int) :=
  l.foldl
    (fun sorts v =>
      match v with
      | .cand c => if c.name == "" then sorts else jsInsert sorts c.name c.value
      | .dir _ => sorts) []

/-- Direction: `parseInt(parseValue(info, sortArg.value), 10) || 1` — NaN
and `0` both fall back to `1`. -/
def sortDirection (info : Info) (node : AstNode) : Int :=
  match parseIntOfJS (parseValue info node) with
  | some n => if n = 0 then 1 else n
  | none => 1

/-- Priority: `orderArg ? parseInt(orderArg.value.value, 10) : Infinity`. -/
def sortPriority (orderArg : Option Arg) : SKey :=
  match orderArg with
  | some a =>
    (match parseIntOfJS a.value.jsValueField with
     | some n => .fin n
     | none => .nanK)
  | none => .inf

mutual
/-- The compiler entry `getSortObject(info, fieldNodes, parentName)` (the dotted-path
version): collect the field array, sort it with `orderBy`, and fold it
into the final ordered path-to-direction mapping. -/
def getSortObject (fuel : Nat) (info : Option Info) (fieldNodes : Option SelList)
    (parentName : Option String) : Except String (List (String × Int)) :=
  match fuel with
  | 0 => .error "fuel"
  | fuel + 1 =>
    match info with
    | none => .ok []
    | some i =>
      let nodes := fieldNodes.getD i.fieldNodes
      match goSort fuel i (collectSels nodes) parentName (SortAcc.arr []) with
      | .error e => .error e
      | .ok acc => .ok (foldSorted (orderBySV acc.values))

/-- The body of the `selections.reduce` fold of `getSortObject`. -/
def goSort (fuel : Nat) (i : Info) (sels : SelList) (parentName : Option String)
    (acc : SortAcc) : Except String SortAcc :=
  match fuel with
  | 0 => .error "fuel"
  | fuel + 1 =>
    match sels with
    | .nil => .ok acc
    | .cons ast rest =>
      match ast.name with
      | none => .error nameTypeErrorMsg
      | some nm =>
        let path := pathPre parentName ++ nm
        match ast.kind with
        | .field =>
          let sortArg := ast.arguments.find? (fun a => a.name == "sort")
          let orderArg := ast.arguments.find? (fun a => a.name == "sortOrder")
          (match sortArg with
           | none => do
             -- `{...list, ...getSortObject(info, ast)}`: the accumulator is
             -- spread into an object, and the recursive call omits the
             -- path, so the sub-tree restarts at an empty parent.
             let sub ← getSortObject fuel (some i) (some (SelList.cons ast SelList.nil)) none
             goSort fuel i rest parentName
               (SortAcc.obj (jsAssign acc.toPairs (sub.map (fun p => (p.1, SVal.dir p.2)))))
           | some sa => do
             -- `[...list, ...getSortObject(info, ast, prefix), entry]`:
             -- both spreads go through `Array.from`, so the recursive
             -- object contributes nothing; it is still evaluated and may
             -- throw.
             let _ ← getSortObject fuel (some i) (some (SelList.cons ast SelList.nil)) (some path)
             goSort fuel i rest parentName
               (SortAcc.arr (acc.toArray ++
                 [{ name := path,
                    value := sortDirection i sa.value,
                    order := sortPriority orderArg }])))
        | .inlineFragment => do
          let _ ← getSortObject fuel (some i) (some (SelList.cons ast SelList.nil)) (some path)
          goSort fuel i rest parentName (SortAcc.arr acc.toArray)
        | .fragmentSpread => do
          let _ ← getSortObject fuel (some i)
            ((i.fragments.lookup nm).map (fun f => SelList.cons f SelList.nil)) (some path)
          goSort fuel i rest parentName (SortAcc.arr acc.toArray)
        | .otherKind => .error unsupportedMsg
end

/-! ## Hook composition

`addHooks(resolver, {pre, post})` wraps a resolver with two hook chains.
The `Middleware` class it drives is imported by the utilities module but
is not among these sources; its `compose` is modelled from the spec: run
the hook list sequentially, a throw aborting the remaining chain and
propagating, with the composed promise resolving to the final hook's
result (`undefined` for an empty list). Pre-hooks receive the resolver's
inputs; post-hooks receive the resolver's result plus the inputs.
Execution order is made observable through an event trace. -/

abbrev Args := List JSVal

inductive HookEv where
  | preEv (i : Nat)
  | resolverEv
  | postEv (i : Nat)
  deriving DecidableEq

/-- Modelled from the spec: the pre-chain of `Middleware.compose`,
returning the trace of hooks started and the chain outcome. -/
def composePre : Nat → List (Args → Except String JSVal) → Args →
    List HookEv × Except String Unit
  | _, [], _ => ([], .ok ())
  | i, h :: rest, args =>
    match h args with
    | .error e => ([HookEv.preEv i], .error e)
    | .ok _ =>
      let (evs, r) := composePre (i + 1) rest args
      (HookEv.preEv i :: evs, r)

/-- Modelled from the spec: the post-chain of `Middleware.compose`; each
hook receives the resolver's result and the original inputs, and the
chain's value is the final hook's result (`none` is the `undefined` of an
empty chain). -/
def composePost : Nat → List (JSVal → Args → Except String JSVal) → JSVal → Args →
    List HookEv × Except String (Option JSVal)
  | _, [], _, _ => ([], .ok none)
  | i, h :: rest, res, args =>
    match h res args with
    | .error e => ([HookEv.postEv i], .error e)
    | .ok v =>
      match rest with
      | [] => ([HookEv.postEv i], .ok (some v))
      | _ :: _ =>
        let (evs, r) := composePost (i + 1) rest res args
        (HookEv.postEv i :: evs, r)

structure Hooks where
  pre : List (Args → Except String JSVal)
  post : List (JSVal → Args → Except String JSVal)

/-- The wrapper `addHooks`: await the pre-chain, await the resolver, then
`await postMiddleware.compose(result, ...args) || result` — the post
chain's value replaces the resolver's result exactly when truthy. -/
def addHooks (hooks : Hooks) (resolver : Args → Except String JSVal) (args : Args) :
    List HookEv × Except String JSVal :=
  let (pevs, pr) := composePre 0 hooks.pre args
  match pr with
  | .error e => (pevs, .error e)
  | .ok _ =>
    match resolver args with
    | .error e => (pevs ++ [HookEv.resolverEv], .error e)
    | .ok v =>
      let (qevs, qr) := composePost 0 hooks.post v args
      match qr with
      | .error e => (pevs ++ [HookEv.resolverEv] ++ qevs, .error e)
      | .ok chain =>
        (pevs ++ [HookEv.resolverEv] ++ qevs,
         .ok (match chain with
           | some c => if truthy c then c else v
           | none => v))

/-! ## The field-argument deriver

GraphQL type shapes, `createInputObject`, and `getFieldArguments` from the
type module. -/

mutual
/-- GraphQL type shapes as `instanceof` distinguishes them. -/
inductive GType where
  | scalarT (name : String)
  | enumT (name : String)
  | listT (ofType : GType)
  | nonNullT (ofType : GType)
  | objectT (name : String) (fields : GFieldList)
  | inputObjectT (name : String) (fields : GFieldList)
/-- Field tables of object-like types. -/
inductive GFieldList where
  | fnil
  | fcons (name : String) (type : GType) (rest : GFieldList)
end

/-- Thrown when the mirror reads the field table off the missing
`_typeConfig` of a non-object type. -/
def fieldsTypeErrorMsg : String :=
  "TypeError: Cannot read property fields of undefined"

mutual
/-- The mirror `createInputObject(type)`: unwrap one NonNull layer, pass
input-object and scalar types through (`isInputObjectType`/`isScalarType`;
an enum is neither), and otherwise mirror the type as `inputFor<name>`
with fields read from `type._typeConfig.fields` and mirrored recursively.
In the graphql release this code requires (it imports `isInputObjectType`,
so release 0.13 or later, while `_typeConfig` survives only until release
14) only object-like types carry `_typeConfig`: an enum stores its config
as `_enumConfig` and a list or non-null wrapper stores none, so reaching
the mirror branch with one of those throws a TypeError at the
`._typeConfig.fields` property access, before any field is reduced. The
single unwrap-then-branch of the source is inlined per shape here so the
recursion stays structural. The by-name memo table (`inputByTypes`) is
never filled by a throwing call and otherwise only affects object identity
and cyclic schemas; it is elided, shapes here being finite trees with
distinct names. -/
def createInputObject : GType → Except String GType
  | .nonNullT (.inputObjectT n f) => .ok (.inputObjectT n f)
  | .nonNullT (.scalarT n) => .ok (.scalarT n)
  | .nonNullT (.enumT _) => .error fieldsTypeErrorMsg
  | .nonNullT (.listT _) => .error fieldsTypeErrorMsg
  | .nonNullT (.nonNullT _) => .error fieldsTypeErrorMsg
  | .nonNullT (.objectT n f) =>
    match mirrorFields f with
    | .ok fs => .ok (.inputObjectT ("inputFor" ++ n) fs)
    | .error e => .error e
  | .inputObjectT n f => .ok (.inputObjectT n f)
  | .scalarT n => .ok (.scalarT n)
  | .enumT _ => .error fieldsTypeErrorMsg
  | .listT _ => .error fieldsTypeErrorMsg
  | .objectT n f =>
    match mirrorFields f with
    | .ok fs => .ok (.inputObjectT ("inputFor" ++ n) fs)
    | .error e => .error e

/-- The `reduce` building the mirrored field table; the first field whose
mirror throws aborts the whole table. -/
def mirrorFields : GFieldList → Except String GFieldList
  | .fnil => .ok .fnil
  | .fcons n t rest =>
    match createInputObject t with
    | .ok t2 =>
      match mirrorFields rest with
      | .ok r2 => .ok (.fcons n t2 r2)
      | .error e => .error e
    | .error e => .error e
end

def GType.isScalarInst : GType → Bool
  | .scalarT _ => true
  | _ => false

def GType.isEnumInst : GType → Bool
  | .enumT _ => true
  | _ => false

def GType.isListInst : GType → Bool
  | .listT _ => true
  | _ => false

def GType.isObjectInst : GType → Bool
  | .objectT _ _ => true
  | _ => false

def GType.unwrapNonNull : GType → GType
  | .nonNullT t => t
  | t => t

/-- The `.ofType` property, read only after a successful list check. -/
def GType.listOf : GType → GType
  | .listT t => t
  | t => t

def GraphQLIntT : GType := .scalarT "Int"

/-- The `op` logical-combinator enum (members `and`, `or`, `not`, `nor`). -/
def GraphQLLogical : GType := .enumT "op"

/-- The `sort` direction enum (members `desc` with value `-1` and `asc`
with value `1`). -/
def GraphQLSort : GType := .enumT "sort"

/-- The deriver `getFieldArguments(field)`: identity fields get nothing; after one
NonNull unwrap, a scalar or enum field gets the eight comparison
arguments, `op`, `sort` and `sortOrder`; a list field additionally gets
`all` and `size` — but building `all` eagerly mirrors the element type,
so the TypeError `createInputObject` throws on an enum or list element
(or on an object element carrying such a subfield) propagates out of the
derivation itself. The `elemMatch` guard tests `type instanceof
GraphQLObjectType` on the same variable that just passed the
`GraphQLList` check, so it can never hold and the branch is dead. -/
def getFieldArguments (fieldName : String) (fieldType : GType) :
    Except String (List (String × GType)) :=
  if fieldName == "_id" || fieldName == "id" then .ok []
  else
    let t := fieldType.unwrapNonNull
    let args :=
      if t.isScalarInst || t.isEnumInst then
        [("eq", t), ("gt", t), ("gte", t), ("lt", t), ("lte", t), ("ne", t),
         ("in", GType.listT t), ("nin", GType.listT t), ("op", GraphQLLogical),
         ("sort", GraphQLSort), ("sortOrder", GraphQLIntT)]
      else []
    if t.isListInst then
      match createInputObject t.listOf with
      | .error e => .error e
      | .ok mirror =>
        let args2 := args ++ [("all", GType.listT mirror), ("size", GraphQLIntT)]
        if t.isObjectInst then
          match createInputObject t.listOf with
          | .error e => .error e
          | .ok m2 => .ok (args2 ++ [("elemMatch", m2)])
        else .ok args2
    else .ok args

/-! ## `getTypes` and the cache-identity rule

The model keeps exactly the state the cached-type branches of `getTypes`
read and write: the context's canonical node interface (an opaque
number), the shared type cache keyed by model key, the context registry
written by `addType`, and the set of type names holding entries in
`resolveReference` (an entry is created for every root type `getType`
builds; only its presence matters to whether the resolution pass
processes the name). Field construction and the inner reference walking
are elided; the observable of the resolution pass is the list of type
names it processes. -/

structure GModel where
  key : String
  name : String

structure OType where
  name : String
  iface : Nat

structure TypeCtx where
  nodeInterface : Nat
  cache : List (String × OType)
  registry : List (String × OType)
  pendingRefs : List String

/-- The builder `getType` at the root, reduced to its bookkeeping: build the type with
the context's node interface, register it under the model name
(`addType`), and ensure its `resolveReference` entry exists. -/
def getTypeM (ctx : TypeCtx) (m : GModel) : OType × TypeCtx :=
  let t : OType := { name := m.name, iface := ctx.nodeInterface }
  (t,
   { ctx with
     registry := jsInsert ctx.registry m.name t,
     pendingRefs :=
       if ctx.pendingRefs.contains m.name then ctx.pendingRefs
       else ctx.pendingRefs ++ [m.name] })

structure TypesResult where
  types : List (String × OType)
  ctx : TypeCtx
  reResolveTypes : List String
  resolvedPass : List String

/-- The synthesizer entry `getTypes(graffitiModels)` with a live cache: a miss builds and caches
the type; a hit whose first registered interface differs from the
context's node interface is rebuilt from its config with the canonical
interface, recorded in `reResolveTypes` and re-registered (the cache entry
itself is left as it was, only its TTL is refreshed); a hit with matching
interface is reused as is. The resolution pass then walks the
`resolveReference` names, skipping those recorded in `reResolveTypes` and
those absent from the produced type map; `resolvedPass` lists the names it
processes. -/
def getTypes (ctx : TypeCtx) (models : List GModel) : TypesResult :=
  let step := fun (st : List (String × OType) × TypeCtx × List String) (m : GModel) =>
    let (types, ctx, rrt) := st
    match ctx.cache.lookup m.key with
    | none =>
      let (t, ctx2) := getTypeM ctx m
      (jsInsert types m.name t,
       { ctx2 with cache := jsInsert ctx2.cache m.key t }, rrt)
    | some t =>
      if t.iface ≠ ctx.nodeInterface then
        let t2 : OType := { t with iface := ctx.nodeInterface }
        (jsInsert types m.name t2,
         { ctx with registry := jsInsert ctx.registry m.name t2 },
         rrt ++ [t2.name])
      else
        (jsInsert types m.name t, ctx, rrt)
  let (types, ctx2, rrt) := models.foldl step ([], ctx, [])
  { types := types
    ctx := ctx2
    reResolveTypes := rrt
    resolvedPass :=
      ctx2.pendingRefs.filter
        (fun n => !(rrt.contains n) && (types.lookup n).isSome) }

/-! ## Shared helpers for statements and examples -/

/-- A leaf field selection. -/
def leafField (nm : String) (args : List Arg) : Selection :=
  .mk .field (some nm) args none

/-- A one-node root list whose selection set is the given single
selection (the shape of `info.fieldNodes` for a query selecting one
field). -/
def rootOf (s : Selection) : SelList :=
  .cons (.mk .field none [] (some (.cons s .nil))) .nil

/-- A one-node root list with the given selection set. -/
def rootOfL (l : SelList) : SelList :=
  .cons (.mk .field none [] (some l)) .nil

def infoEmpty : Info := ⟨.nil, [], []⟩

theorem SelList.append_nil : ∀ l : SelList, l.append .nil = l
  | .nil => rfl
  | .cons a t => by rw [SelList.append, SelList.append_nil t]

/-- First-match lookup in a string-keyed association list (association
lists built by `jsInsert` hold each key at most once, so first match is
the match). -/
def jsLookup {α : Type} : List (String × α) → String → Option α
  | [], _ => none
  | (k2, v) :: rest, k => if k2 = k then some v else jsLookup rest k

/-- Updating a key makes it present with the new value. -/
theorem jsLookup_jsInsert_self {α : Type} (l : List (String × α)) (k : String) (v : α) :
    jsLookup (jsInsert l k v) k = some v := by
  unfold jsInsert
  by_cases h : (l.any fun p => p.1 == k) = true
  · rw [if_pos h]
    induction l with
    | nil => simp at h
    | cons p rest ih =>
      simp only [List.map_cons]
      by_cases hp : (p.1 == k) = true
      · rw [if_pos hp]
        simp [jsLookup]
      · rw [if_neg hp]
        have hk : ¬ p.1 = k := by simpa using hp
        simp only [jsLookup, if_neg hk]
        apply ih
        simp only [List.any_cons, Bool.or_eq_true] at h
        rcases h with h1 | h1
        · exact absurd h1 hp
        · exact h1
  · rw [if_neg h]
    induction l with
    | nil => simp [jsLookup]
    | cons p rest ih =>
      simp only [List.any_cons, Bool.or_eq_true, not_or] at h
      have hk : ¬ p.1 = k := by simpa using h.1
      simp only [List.cons_append, jsLookup, if_neg hk]
      exact ih h.2

/-! ## Claim C6 — literal parsing by syntactic kind -/

def infoC6 : Info := ⟨.nil, [], [("v", .vstr "bound")]⟩

/-- C6: the claim says a list literal parses to the list of its elements
each recursively parsed by the same rules. The code's `Kind.LIST` branch
instead maps the two-argument `parseValue` over the elements, passing each
element as `info` and its index as the node, so every element parses to
`undefined`: the list literal `[1]` parses to `[undefined]`, while the
same integer literal alone parses to `1`. Variable references do resolve
against the binding set, as claimed. -/
theorem C6_parse_value_list_bug :
    parseValue infoC6 (.listN [.intN "1"]) = .vlist [.undef] ∧
    parseValue infoC6 (.listN [.intN "1"]) ≠ .vlist [.vnum 1] ∧
    parseValue infoC6 (.intN "1") = .vnum 1 ∧
    parseValue infoC6 (.variableN "v") = .vstr "bound" := by
  refine ⟨rfl, ?_, rfl, rfl⟩
  intro h
  simp [parseValue] at h

/-! ## Claim C9 — absent context and empty selection sets -/

/-- C9: with an absent resolver context both extractions return the empty
mapping, and with a present context whose nodes carry no selections
(absent or empty selection sets) both return the empty mapping; neither
raises. -/
theorem C9_empty_context (fuel : Nat) (nodes : Option SelList) (parent : Option String)
    (i : Info) (l : SelList) (h : collectSels l = SelList.nil) :
    getFilterObject (fuel + 1) none nodes parent = .ok [] ∧
    getSortObject (fuel + 1) none nodes parent = .ok [] ∧
    getFilterObject (fuel + 2) (some i) (some l) parent = .ok [] ∧
    getSortObject (fuel + 2) (some i) (some l) parent = .ok [] := by
  refine ⟨rfl, rfl, ?_, ?_⟩
  · simp only [getFilterObject, Option.getD_some, h, goFilter]
  · simp only [getSortObject, Option.getD_some, h, goSort]
    rfl

/-- Witness for C9 on a node with an absent selection set. -/
theorem C9_empty_context_witness :
    getFilterObject 1 none none none = .ok [] ∧
    getSortObject 1 none none none = .ok [] ∧
    getFilterObject 2 (some infoEmpty) (some (.cons (leafField "a" []) .nil)) none = .ok [] ∧
    getSortObject 2 (some infoEmpty) (some (.cons (leafField "a" []) .nil)) none = .ok [] :=
  C9_empty_context 0 none none infoEmpty (.cons (leafField "a" []) .nil) rfl

/-! ## Claims C5 and C10 — hook composition -/

theorem composePre_events (hooks : List (Args → Except String JSVal)) :
    ∀ (i : Nat) (args : Args) (ev : HookEv), ev ∈ (composePre i hooks args).1 →
      ∃ j, ev = HookEv.preEv j := by
  induction hooks with
  | nil => intro i args ev hev; simp [composePre] at hev
  | cons h rest ih =>
    intro i args ev hev
    simp only [composePre] at hev
    cases hr : h args with
    | error e =>
      rw [hr] at hev
      simp at hev
      exact ⟨i, hev⟩
    | ok v =>
      rw [hr] at hev
      simp only [List.mem_cons] at hev
      rcases hev with hev | hev
      · exact ⟨i, hev⟩
      · exact ih (i + 1) args ev hev

theorem composePost_events (hooks : List (JSVal → Args → Except String JSVal)) :
    ∀ (i : Nat) (res : JSVal) (args : Args) (ev : HookEv),
      ev ∈ (composePost i hooks res args).1 → ∃ j, ev = HookEv.postEv j := by
  induction hooks with
  | nil => intro i res args ev hev; simp [composePost] at hev
  | cons h rest ih =>
    intro i res args ev hev
    simp only [composePost] at hev
    cases hr : h res args with
    | error e =>
      rw [hr] at hev
      simp at hev
      exact ⟨i, hev⟩
    | ok v =>
      rw [hr] at hev
      cases rest with
      | nil =>
        simp at hev
        exact ⟨i, hev⟩
      | cons h2 rest2 =>
        simp only [List.mem_cons] at hev
        rcases hev with hev | hev
        · exact ⟨i, hev⟩
        · exact ih (i + 1) res args ev hev

/-- C5: when the pre-chain, the resolver and the post-chain all succeed,
the trace is exactly the pre-hook events, then the resolver, then the
post-hook events (pre-hooks before the resolver, post-hooks after), and
the returned value is the post chain's final result exactly when that
result is truthy, otherwise the resolver's own result — an empty chain or
a falsy chain result keeps the resolver's result. -/
theorem C5_hook_replacement (hooks : Hooks) (resolver : Args → Except String JSVal)
    (args : Args) (pevs qevs : List HookEv) (v : JSVal) (chain : Option JSVal)
    (hpre : composePre 0 hooks.pre args = (pevs, .ok ()))
    (hres : resolver args = .ok v)
    (hpost : composePost 0 hooks.post v args = (qevs, .ok chain)) :
    addHooks hooks resolver args =
      (pevs ++ [HookEv.resolverEv] ++ qevs,
       .ok (chain.elim v (fun c => if truthy c then c else v))) ∧
    (∀ ev ∈ pevs, ∃ j, ev = HookEv.preEv j) ∧
    (∀ ev ∈ qevs, ∃ j, ev = HookEv.postEv j) ∧
    (∀ c, chain = some c → truthy c = true →
      (addHooks hooks resolver args).2 = .ok c) ∧
    (∀ c, chain = some c → truthy c = false →
      (addHooks hooks resolver args).2 = .ok v) ∧
    (chain = none → (addHooks hooks resolver args).2 = .ok v) := by
  have hmain : addHooks hooks resolver args =
      (pevs ++ [HookEv.resolverEv] ++ qevs,
       .ok (chain.elim v (fun c => if truthy c then c else v))) := by
    cases chain with
    | none =>
      unfold addHooks
      simp only [hpre, hres, hpost]
      rfl
    | some c =>
      unfold addHooks
      simp only [hpre, hres, hpost]
      rfl
  refine ⟨hmain, ?_, ?_, ?_, ?_, ?_⟩
  · intro ev hev
    exact composePre_events hooks.pre 0 args ev (by rw [hpre]; exact hev)
  · intro ev hev
    exact composePost_events hooks.post 0 v args ev (by rw [hpost]; exact hev)
  · intro c hc ht
    rw [hmain, hc]
    simp [Option.elim, ht]
  · intro c hc ht
    rw [hmain, hc]
    simp [Option.elim, ht]
  · intro hc
    rw [hmain, hc]
    rfl

/-- Witness for C5: one pre-hook, a resolver returning `"r"`, and two
post-hooks whose final result `"z"` is truthy and replaces the resolver's
result. -/
theorem C5_hook_replacement_witness :
    addHooks
      ⟨[fun _ => .ok .vnull],
       [fun r _ => .ok r, fun _ _ => .ok (.vstr "z")]⟩
      (fun _ => .ok (.vstr "r")) [] =
      ([HookEv.preEv 0] ++ [HookEv.resolverEv] ++ [HookEv.postEv 0, HookEv.postEv 1],
       .ok (.vstr "z")) := by
  have h := (C5_hook_replacement
    ⟨[fun _ => .ok .vnull], [fun r _ => .ok r, fun _ _ => .ok (.vstr "z")]⟩
    (fun _ => .ok (.vstr "r")) [] [HookEv.preEv 0] [HookEv.postEv 0, HookEv.postEv 1]
    (.vstr "r") (some (.vstr "z")) rfl rfl rfl).1
  simpa using h

/-- C10: if the pre-chain succeeds and the wrapped resolver itself throws,
the composed resolver propagates that error unchanged and the trace
contains no post-hook event at all, whatever the pre/post configuration. -/
theorem C10_resolver_error_skips_posts (hooks : Hooks)
    (resolver : Args → Except String JSVal) (args : Args) (e : String)
    (pevs : List HookEv)
    (hpre : composePre 0 hooks.pre args = (pevs, .ok ()))
    (hres : resolver args = .error e) :
    addHooks hooks resolver args = (pevs ++ [HookEv.resolverEv], .error e) ∧
    (∀ j, HookEv.postEv j ∉ (addHooks hooks resolver args).1) := by
  have hmain : addHooks hooks resolver args = (pevs ++ [HookEv.resolverEv], .error e) := by
    unfold addHooks
    rw [hpre, hres]
  refine ⟨hmain, ?_⟩
  intro j hj
  rw [hmain] at hj
  simp only [List.mem_append, List.mem_singleton] at hj
  rcases hj with hj | hj
  · obtain ⟨j2, hj2⟩ := composePre_events hooks.pre 0 args _ (by rw [hpre]; exact hj)
    cases hj2
  · cases hj

/-- Witness for C10: a failing resolver behind one pre-hook and one
post-hook; the post-hook event never appears. -/
theorem C10_resolver_error_skips_posts_witness :
    addHooks ⟨[fun _ => .ok .vnull], [fun _ _ => .ok (.vstr "z")]⟩
      (fun _ => .error "boom") [] =
      ([HookEv.preEv 0] ++ [HookEv.resolverEv], .error "boom") :=
  (C10_resolver_error_skips_posts
    ⟨[fun _ => .ok .vnull], [fun _ _ => .ok (.vstr "z")]⟩
    (fun _ => .error "boom") [] "boom" [HookEv.preEv 0] rfl rfl).1

/-! ## Claim C3 — the field-argument deriver -/

/-- C3 counterexample: the claim says a list-of-scalar field gets the
eight comparison arguments (typed to the element scalar) plus sort
arguments, and that a list-of-object field with compound elements gets
`elemMatch`. In the code a list field is neither a scalar nor an enum
instance, so it gets no comparison or sort argument at all — only `all`
and `size` — and the `elemMatch` guard (`type instanceof
GraphQLObjectType` on the list wrapper itself) never holds: the
list-of-object derivation here succeeds (its element has only a scalar
subfield, so its mirror is constructible) yet carries no `elemMatch`. -/
theorem C3_claim_counterexample :
    getFieldArguments "tags" (.listT (.scalarT "String")) =
      .ok [("all", .listT (.scalarT "String")), ("size", GraphQLIntT)] ∧
    jsLookup [("all", GType.listT (.scalarT "String")), ("size", GraphQLIntT)]
      "eq" = none ∧
    jsLookup [("all", GType.listT (.scalarT "String")), ("size", GraphQLIntT)]
      "sort" = none ∧
    getFieldArguments "posts"
      (.listT (.objectT "Post" (.fcons "title" (.scalarT "String") .fnil))) =
      .ok [("all", .listT (.inputObjectT "inputForPost"
             (.fcons "title" (.scalarT "String") .fnil))), ("size", GraphQLIntT)] ∧
    jsLookup [("all", GType.listT (.inputObjectT "inputForPost"
        (.fcons "title" (.scalarT "String") .fnil))), ("size", GraphQLIntT)]
      "elemMatch" = none :=
  ⟨rfl, rfl, rfl, rfl, rfl⟩

/-- C3 as amended: non-identity fields whose NonNull-unwrapped type is
directly a scalar or an enum get exactly the eight comparison arguments
(typed to that type, `in`/`nin` as lists of it) plus `op`, the sort
direction enum and the integer sort priority; a list field gets exactly
`all` (list of the element's input mirror) and `size` when the element's
mirror is constructible, and otherwise the derivation itself raises the
mirror's error — which is the `_typeConfig` TypeError for every enum and
every list element, and, reachably, for a list of objects carrying an
enum-typed subfield; identity fields get nothing; and no successful
derivation ever contains `elemMatch`, the guard being dead. -/
theorem C3_field_arguments_amended :
    (∀ (nm s : String), nm ≠ "_id" → nm ≠ "id" →
      getFieldArguments nm (.scalarT s) =
        .ok [("eq", .scalarT s), ("gt", .scalarT s), ("gte", .scalarT s), ("lt", .scalarT s),
         ("lte", .scalarT s), ("ne", .scalarT s), ("in", .listT (.scalarT s)),
         ("nin", .listT (.scalarT s)), ("op", GraphQLLogical), ("sort", GraphQLSort),
         ("sortOrder", GraphQLIntT)] ∧
      getFieldArguments nm (.nonNullT (.scalarT s)) = getFieldArguments nm (.scalarT s) ∧
      getFieldArguments nm (.enumT s) =
        .ok [("eq", .enumT s), ("gt", .enumT s), ("gte", .enumT s), ("lt", .enumT s),
         ("lte", .enumT s), ("ne", .enumT s), ("in", .listT (.enumT s)),
         ("nin", .listT (.enumT s)), ("op", GraphQLLogical), ("sort", GraphQLSort),
         ("sortOrder", GraphQLIntT)]) ∧
    (∀ (nm : String) (el mirror : GType), nm ≠ "_id" → nm ≠ "id" →
      createInputObject el = .ok mirror →
      getFieldArguments nm (.listT el) =
        .ok [("all", .listT mirror), ("size", GraphQLIntT)]) ∧
    (∀ (nm : String) (el : GType) (e : String), nm ≠ "_id" → nm ≠ "id" →
      createInputObject el = .error e →
      getFieldArguments nm (.listT el) = .error e) ∧
    (∀ s : String, createInputObject (.enumT s) = .error fieldsTypeErrorMsg) ∧
    (∀ t : GType, createInputObject (.listT t) = .error fieldsTypeErrorMsg) ∧
    getFieldArguments "posts"
      (.listT (.objectT "Post" (.fcons "status" (.enumT "Status") .fnil))) =
      .error fieldsTypeErrorMsg ∧
    (∀ t : GType, getFieldArguments "id" t = .ok [] ∧
      getFieldArguments "_id" t = .ok []) ∧
    (∀ (nm : String) (t : GType) (args : List (String × GType)),
      getFieldArguments nm t = .ok args → jsLookup args "elemMatch" = none) := by
  have hcond : ∀ nm : String, nm ≠ "_id" → nm ≠ "id" →
      (nm == "_id" || nm == "id") = false := by
    intro nm h1 h2
    simp [h1, h2]
  refine ⟨?_, ?_, ?_, ?_, ?_, ?_, ?_, ?_⟩
  · intro nm s h1 h2
    refine ⟨?_, ?_, ?_⟩ <;>
      simp [getFieldArguments, hcond nm h1 h2, GType.unwrapNonNull,
        GType.isScalarInst, GType.isEnumInst, GType.isListInst]
  · intro nm el mirror h1 h2 hmir
    simp [getFieldArguments, hcond nm h1 h2, GType.unwrapNonNull,
      GType.isScalarInst, GType.isEnumInst, GType.isListInst, GType.isObjectInst,
      GType.listOf, hmir]
  · intro nm el e h1 h2 hmir
    simp [getFieldArguments, hcond nm h1 h2, GType.unwrapNonNull,
      GType.isScalarInst, GType.isEnumInst, GType.isListInst, GType.isObjectInst,
      GType.listOf, hmir]
  · intro s
    rfl
  · intro t
    rfl
  · rfl
  · intro t
    exact ⟨rfl, rfl⟩
  · intro nm t args h
    rw [getFieldArguments] at h
    by_cases hid : (nm == "_id" || nm == "id") = true
    · rw [if_pos hid] at h
      cases h
      rfl
    · rw [if_neg hid] at h
      cases ht : t.unwrapNonNull <;> rw [ht] at h <;>
        simp only [GType.isScalarInst, GType.isEnumInst, GType.isListInst,
          GType.isObjectInst, GType.listOf, Bool.or_self, Bool.or_false,
          Bool.false_or, if_true, if_false, List.nil_append] at h
      all_goals try (cases h; rfl)
      next el =>
        cases hm : createInputObject el with
        | error e =>
          simp only [hm] at h
          cases h
        | ok m =>
          simp only [hm] at h
          cases h
          rfl

/-- Witness for C3: a `Float` scalar field, a list-of-`String` field, a
list-of-enum field raising the mirror TypeError, an identity field, and
an `elemMatch` lookup on a concrete successful derivation. -/
theorem C3_field_arguments_amended_witness :
    getFieldArguments "age" (.scalarT "Float") =
      .ok [("eq", .scalarT "Float"), ("gt", .scalarT "Float"), ("gte", .scalarT "Float"),
       ("lt", .scalarT "Float"), ("lte", .scalarT "Float"), ("ne", .scalarT "Float"),
       ("in", .listT (.scalarT "Float")), ("nin", .listT (.scalarT "Float")),
       ("op", GraphQLLogical), ("sort", GraphQLSort), ("sortOrder", GraphQLIntT)] ∧
    getFieldArguments "labels" (.listT (.scalarT "String")) =
      .ok [("all", .listT (.scalarT "String")), ("size", GraphQLIntT)] ∧
    getFieldArguments "kinds" (.listT (.enumT "Kind")) = .error fieldsTypeErrorMsg ∧
    getFieldArguments "id" (.scalarT "ID") = .ok [] ∧
    jsLookup [("all", GType.listT (.scalarT "String")), ("size", GraphQLIntT)]
      "elemMatch" = none :=
  ⟨(C3_field_arguments_amended.1 "age" "Float" (by decide) (by decide)).1,
   C3_field_arguments_amended.2.1 "labels" (.scalarT "String") (.scalarT "String")
     (by decide) (by decide) rfl,
   C3_field_arguments_amended.2.2.1 "kinds" (.enumT "Kind") fieldsTypeErrorMsg
     (by decide) (by decide) rfl,
   (C3_field_arguments_amended.2.2.2.2.2.2.1 (.scalarT "ID")).1,
   C3_field_arguments_amended.2.2.2.2.2.2.2 "labels" (.listT (.scalarT "String"))
     [("all", GType.listT (.scalarT "String")), ("size", GraphQLIntT)] rfl⟩

/-! ## Claim C4 — the cache-identity rule of `getTypes` -/

def ctxC4 : TypeCtx := ⟨7, [], [], []⟩
def modelA : GModel := ⟨"A", "A"⟩

/-- C4 counterexample: the claim says a model re-served from cache with
matching identity has its reference-resolution pass skipped. Build `A`
once (which caches it and records its pending-reference entry), then run
`getTypes` again in the same context: `A` is served from cache with the
matching interface, is not recorded in `reResolveTypes`, and the
resolution pass processes it regardless — the skip list only ever holds
the rebuilt (mismatched-identity) types. -/
theorem C4_claim_counterexample :
    (getTypes ctxC4 [modelA]).ctx.cache.lookup "A" = some ⟨"A", 7⟩ ∧
    (getTypes ctxC4 [modelA]).ctx.nodeInterface = 7 ∧
    (getTypes (getTypes ctxC4 [modelA]).ctx [modelA]).reResolveTypes = [] ∧
    (getTypes (getTypes ctxC4 [modelA]).ctx [modelA]).resolvedPass = ["A"] :=
  ⟨rfl, rfl, rfl, rfl⟩

/-- C4 as amended: a cache hit whose registered interface differs from the
context's canonical one is rebuilt with the canonical interface, replaces
the registry entry, and is the type the resolution pass skips (via
`reResolveTypes`); a hit with matching identity is reused untouched and
the resolution pass runs for it exactly when a pending-reference entry
exists under its name. -/
theorem C4_cache_identity_amended (ctx : TypeCtx) (m : GModel) (t : OType)
    (hc : ctx.cache.lookup m.key = some t) :
    (t.iface ≠ ctx.nodeInterface →
      jsLookup (getTypes ctx [m]).types m.name = some ⟨t.name, ctx.nodeInterface⟩ ∧
      jsLookup (getTypes ctx [m]).ctx.registry m.name = some ⟨t.name, ctx.nodeInterface⟩ ∧
      (getTypes ctx [m]).reResolveTypes = [t.name] ∧
      t.name ∉ (getTypes ctx [m]).resolvedPass) ∧
    (t.iface = ctx.nodeInterface →
      jsLookup (getTypes ctx [m]).types m.name = some t ∧
      (getTypes ctx [m]).ctx.registry = ctx.registry ∧
      (getTypes ctx [m]).reResolveTypes = [] ∧
      (m.name ∈ (getTypes ctx [m]).resolvedPass ↔ m.name ∈ ctx.pendingRefs)) := by
  constructor
  · intro hne
    have hres : getTypes ctx [m] =
        { types := jsInsert [] m.name ⟨t.name, ctx.nodeInterface⟩
          ctx := { ctx with
            registry := jsInsert ctx.registry m.name ⟨t.name, ctx.nodeInterface⟩ }
          reResolveTypes := [t.name]
          resolvedPass :=
            ctx.pendingRefs.filter
              (fun n => !([t.name].contains n) &&
                ((jsInsert [] m.name (⟨t.name, ctx.nodeInterface⟩ : OType)).lookup n).isSome) } := by
      unfold getTypes
      simp only [List.foldl, hc, if_pos hne, List.nil_append]
    refine ⟨?_, ?_, ?_, ?_⟩
    · rw [hres]
      exact jsLookup_jsInsert_self [] m.name _
    · rw [hres]
      exact jsLookup_jsInsert_self ctx.registry m.name _
    · rw [hres]
    · rw [hres]
      simp only [List.mem_filter]
      rintro ⟨-, hcond⟩
      simp at hcond
  · intro he
    have hres : getTypes ctx [m] =
        { types := jsInsert [] m.name t
          ctx := ctx
          reResolveTypes := []
          resolvedPass :=
            ctx.pendingRefs.filter
              (fun n => !(([] : List String).contains n) &&
                ((jsInsert [] m.name t).lookup n).isSome) } := by
      unfold getTypes
      simp only [List.foldl, hc, he, ne_eq, not_true_eq_false, if_neg, ite_false,
        not_false_eq_true]
    refine ⟨?_, ?_, ?_, ?_⟩
    · rw [hres]
      exact jsLookup_jsInsert_self [] m.name t
    · rw [hres]
    · rw [hres]
    · rw [hres]
      simp [List.mem_filter, jsInsert, List.lookup]

def ctxC4m : TypeCtx := ⟨8, [("A", ⟨"A", 7⟩)], [], ["A"]⟩

/-- Witness for C4: a cached type carrying interface `7` in a context
whose canonical interface is `8` is rebuilt and skipped by the resolution
pass. -/
theorem C4_cache_identity_amended_witness :
    (getTypes ctxC4m [modelA]).reResolveTypes = ["A"] ∧
    "A" ∉ (getTypes ctxC4m [modelA]).resolvedPass :=
  ⟨((C4_cache_identity_amended ctxC4m modelA ⟨"A", 7⟩ rfl).1 (by decide)).2.2.1,
   ((C4_cache_identity_amended ctxC4m modelA ⟨"A", 7⟩ rfl).1 (by decide)).2.2.2⟩

/-! ## Claim C1 — per-field filter clause shapes -/

/-- Folding at most one entry into an empty object is the identity. -/
theorem jsAssign_nil_small {α : Type} (cfg : List (String × α))
    (h : cfg = [] ∨ ∃ k v, cfg = [(k, v)]) : jsAssign [] cfg = cfg := by
  rcases h with h | ⟨k, v, h⟩ <;> subst h
  · rfl
  · simp [jsAssign, jsInsert]

/-- A field's `config` is empty or a single path entry. -/
theorem fieldFilterConfig_shape (i : Info) (path : String) (args : List Arg) :
    fieldFilterConfig i path args = [] ∨
      ∃ k v, fieldFilterConfig i path args = [(k, v)] := by
  simp only [fieldFilterConfig]
  split
  · exact Or.inr ⟨_, _, rfl⟩
  · exact Or.inl rfl

def friendsSelection : Selection :=
  leafField "friends" [⟨"eq", .stringN "x"⟩, ⟨"gt", .stringN "a"⟩, ⟨"op", .enumN "or"⟩]

def ageSelection : Selection := leafField "age" [⟨"gt", .intN "5"⟩]

def nestedAgeSelection : Selection :=
  .mk .field (some "p") [] (some (.cons ageSelection .nil))

/-- C1: the `Field` branch emits one `{$name: value}` clause per supplied
comparison argument; a field with exactly one clause contributes it
directly at its dotted path, never wrapped; a field with several clauses
wraps them in the combinator keyed by its `op` argument, `and` by
default. End to end, `friends(eq:"x", gt:"a", op:or)` compiles to
`{friends: {$or: [{$eq:"x"}, {$gt:"a"}]}}`, `age(gt:5)` to
`{age: {$gt: 5}}`, and under a parent `p` the entry lands at the dotted
path `p.age`. (The schema's `op` enum members are lowercase, so the
combinator member is written `or`.) -/
theorem C1_filter_clause_shapes :
    (∀ (i : Info) (args : List Arg),
      (comparisonFilters i args).length =
        (args.filter (fun a => names.contains a.name)).length) ∧
    (∀ (i : Info) (path : String) (args : List Arg) (f : String × JSVal),
      comparisonFilters i args = [f] →
      fieldFilterConfig i path args = [(path, FilterVal.single f)]) ∧
    (∀ (i : Info) (path : String) (args : List Arg),
      2 ≤ (comparisonFilters i args).length →
      fieldFilterConfig i path args =
        [(path, FilterVal.combo ("$" ++ opOf args) (comparisonFilters i args))]) ∧
    (∀ args : List Arg,
      args.find? (fun a => a.name == "op") = none → opOf args = "and") ∧
    (∀ (fuel : Nat) (i : Info) (nm : String) (args : List Arg) (parent : String),
      getFilterObject (fuel + 4) (some i) (some (rootOf (leafField nm args)))
          (some parent) =
        .ok (fieldFilterConfig i (parent ++ "." ++ nm) args)) ∧
    getFilterObject 9 (some infoEmpty) (some (rootOf friendsSelection)) none =
      .ok [("friends", FilterVal.combo "$or"
        [("$eq", .vstr "x"), ("$gt", .vstr "a")])] ∧
    getFilterObject 9 (some infoEmpty) (some (rootOf ageSelection)) none =
      .ok [("age", FilterVal.single ("$gt", .vnum 5))] ∧
    getFilterObject 9 (some infoEmpty) (some (rootOf nestedAgeSelection)) none =
      .ok [("p.age", FilterVal.single ("$gt", .vnum 5))] := by
  refine ⟨?_, ?_, ?_, ?_, ?_, rfl, rfl, rfl⟩
  · intro i args
    simp [comparisonFilters]
  · intro i path args f h
    simp [fieldFilterConfig, h]
  · intro i path args h
    simp only [fieldFilterConfig]
    rw [if_pos (by omega), if_pos (by omega)]
  · intro args h
    unfold opOf
    rw [h]
  · intro fuel i nm args parent
    have hstep : getFilterObject (fuel + 4) (some i) (some (rootOf (leafField nm args)))
        (some parent) =
        .ok (jsAssign [] (fieldFilterConfig i (parent ++ "." ++ nm) args)) := rfl
    rw [hstep, jsAssign_nil_small _ (fieldFilterConfig_shape i _ args)]

/-- Witness for C1 at concrete fields. -/
theorem C1_filter_clause_shapes_witness :
    fieldFilterConfig infoEmpty "age" [⟨"gt", .intN "5"⟩] =
      [("age", FilterVal.single ("$gt", .vnum 5))] ∧
    fieldFilterConfig infoEmpty "friends"
        [⟨"eq", .stringN "x"⟩, ⟨"gt", .stringN "a"⟩, ⟨"op", .enumN "or"⟩] =
      [("friends", FilterVal.combo ("$" ++ opOf
        [⟨"eq", .stringN "x"⟩, ⟨"gt", .stringN "a"⟩, ⟨"op", .enumN "or"⟩])
        (comparisonFilters infoEmpty
          [⟨"eq", .stringN "x"⟩, ⟨"gt", .stringN "a"⟩, ⟨"op", .enumN "or"⟩]))] ∧
    opOf [] = "and" ∧
    getFilterObject 4 (some infoEmpty) (some (rootOf (leafField "age" [⟨"gt", .intN "5"⟩])))
        (some "p") =
      .ok (fieldFilterConfig infoEmpty ("p" ++ "." ++ "age") [⟨"gt", .intN "5"⟩]) :=
  ⟨C1_filter_clause_shapes.2.1 infoEmpty "age" [⟨"gt", .intN "5"⟩] ("$gt", .vnum 5) rfl,
   C1_filter_clause_shapes.2.2.1 infoEmpty "friends"
     [⟨"eq", .stringN "x"⟩, ⟨"gt", .stringN "a"⟩, ⟨"op", .enumN "or"⟩] (by decide),
   C1_filter_clause_shapes.2.2.2.1 [] rfl,
   C1_filter_clause_shapes.2.2.2.2.1 0 infoEmpty "age" [⟨"gt", .intN "5"⟩] "p"⟩

/-! ## Claim C7 — dotted paths in sort extraction -/

def infoC7 : Info := ⟨.nil, [], [("d", .vnum 1)]⟩

def xSortSelection : Selection := leafField "x" [⟨"sort", .variableN "d"⟩]

def pParentSelection : Selection :=
  .mk .field (some "p") [] (some (.cons xSortSelection .nil))

/-- C7: the claim says sort extraction accumulates the same dotted paths
as filter extraction, regardless of whether ancestors carry a `sort`
argument. In the code, the branch for a field without a `sort` argument
recurses with the path argument omitted, so the sub-call below records the
bare path `x` instead of `p.x` — and spreading the sub-call's mapping into
the outer collection then turns the entry into a bare number that the
final fold drops, so `p { x(sort:...) }` compiles to the empty mapping
rather than `{p.x: 1}`. -/
theorem C7_nested_sort_path_bug :
    getSortObject 30 (some infoC7) (some (.cons pParentSelection .nil)) none =
      .ok [("x", 1)] ∧
    getSortObject 30 (some infoC7) (some (rootOf pParentSelection)) none = .ok [] :=
  ⟨rfl, rfl⟩

/-! ## Claim C2 — the sort pipeline -/

theorem cmpInt_swap (a b : Int) : cmpInt b a = (cmpInt a b).swap := by
  unfold cmpInt
  split_ifs <;> first
    | rfl
    | (exfalso; omega)

theorem cmpCharList_swap : ∀ a b : List Char, cmpCharList b a = (cmpCharList a b).swap := by
  intro a
  induction a with
  | nil =>
    intro b
    cases b <;> rfl
  | cons c cs ih =>
    intro b
    cases b with
    | nil => rfl
    | cons d ds =>
      simp only [cmpCharList]
      rw [cmpInt_swap c.toNat d.toNat]
      cases h : cmpInt c.toNat d.toNat
      · rfl
      · exact ih ds
      · rfl

theorem cmpStr_swap (a b : String) : cmpStr b a = (cmpStr a b).swap :=
  cmpCharList_swap a.toList b.toList

theorem cmpSKey_swap (x y : SKey) (hx : x ≠ .nanK) (hy : y ≠ .nanK) :
    cmpSKey y x = (cmpSKey x y).swap := by
  cases x <;> cases y <;>
    first
      | rfl
      | (exact absurd rfl hx)
      | (exact absurd rfl hy)
      | (exact cmpInt_swap _ _)
      | (exact cmpStr_swap _ _)

theorem nameKey_ne_nan (v : SVal) : v.nameKey ≠ SKey.nanK := by
  cases v <;> simp [SVal.nameKey]

theorem valueKey_ne_nan (v : SVal) : v.valueKey ≠ SKey.nanK := by
  cases v <;> simp [SVal.valueKey]

theorem cmpSVal_swap (a b : SVal) (ha : a.orderKey ≠ .nanK) (hb : b.orderKey ≠ .nanK) :
    cmpSVal b a = (cmpSVal a b).swap := by
  unfold cmpSVal
  rw [cmpSKey_swap a.orderKey b.orderKey ha hb,
    cmpSKey_swap a.nameKey b.nameKey (nameKey_ne_nan a) (nameKey_ne_nan b),
    cmpSKey_swap a.valueKey b.valueKey (valueKey_ne_nan a) (valueKey_ne_nan b)]
  cases cmpSKey a.orderKey b.orderKey <;>
    cases cmpSKey a.nameKey b.nameKey <;>
      cases cmpSKey a.valueKey b.valueKey <;> rfl

theorem insertSV_mem (x z : SVal) : ∀ l : List SVal, z ∈ insertSV x l → z = x ∨ z ∈ l := by
  intro l
  induction l with
  | nil => simp [insertSV]
  | cons y ys ih =>
    simp only [insertSV]
    by_cases h : cmpSVal y x = .gt
    · rw [if_pos h]
      intro hz
      simp only [List.mem_cons] at hz ⊢
      tauto
    · rw [if_neg h]
      intro hz
      simp only [List.mem_cons] at hz ⊢
      rcases hz with hz | hz
      · tauto
      · rcases ih hz with hz | hz <;> tauto

theorem chain_insertSV (x : SVal) (hx : x.orderKey ≠ .nanK) :
    ∀ l : List SVal, (∀ y ∈ l, y.orderKey ≠ SKey.nanK) →
      List.Chain' (fun a b => cmpSVal a b ≠ .gt) l →
      List.Chain' (fun a b => cmpSVal a b ≠ .gt) (insertSV x l) := by
  intro l
  induction l with
  | nil =>
    intro _ _
    simp [insertSV]
  | cons y ys ih =>
    intro hmem hch
    have hy : y.orderKey ≠ SKey.nanK := hmem y (by simp)
    have hmem2 : ∀ z ∈ ys, z.orderKey ≠ SKey.nanK := fun z hz => hmem z (by simp [hz])
    simp only [insertSV]
    by_cases hyx : cmpSVal y x = .gt
    · rw [if_pos hyx]
      refine List.chain'_cons.mpr ⟨?_, hch⟩
      rw [cmpSVal_swap y x hy hx, hyx]
      decide
    · rw [if_neg hyx]
      cases ys with
      | nil =>
        simp [insertSV, List.chain'_cons, hyx]
      | cons z zs =>
        have hz : z.orderKey ≠ SKey.nanK := hmem2 z (by simp)
        have htail : List.Chain' (fun a b => cmpSVal a b ≠ .gt) (insertSV x (z :: zs)) :=
          ih hmem2 hch.tail
        simp only [insertSV] at htail ⊢
        by_cases hzx : cmpSVal z x = .gt
        · rw [if_pos hzx] at htail ⊢
          exact List.chain'_cons.mpr ⟨hyx, htail⟩
        · rw [if_neg hzx] at htail ⊢
          exact List.chain'_cons.mpr ⟨(List.chain'_cons.mp hch).1, htail⟩

theorem orderBySV_chain (l : List SVal) (h : ∀ x ∈ l, x.orderKey ≠ SKey.nanK) :
    List.Chain' (fun a b => cmpSVal a b ≠ .gt) (orderBySV l) := by
  have haux : ∀ (l2 acc : List SVal), (∀ x ∈ l2, x.orderKey ≠ SKey.nanK) →
      (∀ x ∈ acc, x.orderKey ≠ SKey.nanK) →
      List.Chain' (fun a b => cmpSVal a b ≠ .gt) acc →
      List.Chain' (fun a b => cmpSVal a b ≠ .gt)
        (l2.foldl (fun acc x => insertSV x acc) acc) := by
    intro l2
    induction l2 with
    | nil =>
      intro acc _ _ hch
      exact hch
    | cons x xs ih =>
      intro acc hl hacc hch
      have hx : x.orderKey ≠ SKey.nanK := hl x (by simp)
      simp only [List.foldl_cons]
      refine ih (insertSV x acc) (fun z hz => hl z (by simp [hz])) ?_ ?_
      · intro z hz
        rcases insertSV_mem x z acc hz with hz2 | hz2
        · rw [hz2]; exact hx
        · exact hacc z hz2
      · exact chain_insertSV x hx acc hacc hch
  exact haux l [] h (by simp) (by simp)

/-- The candidate entry the `sortArg` branch records for a field. -/
def candOf (i : Info) (parentName : Option String) (s : Selection) : Candidate :=
  { name := pathPre parentName ++ (s.name.getD "")
    value :=
      (match s.arguments.find? (fun a => a.name == "sort") with
       | some sa => sortDirection i sa.value
       | none => 1)
    order := sortPriority (s.arguments.find? (fun a => a.name == "sortOrder")) }

def candsOf (i : Info) (parentName : Option String) : SelList → List Candidate
  | .nil => []
  | .cons s rest => candOf i parentName s :: candsOf i parentName rest

/-- A flat selection list of named leaf fields each carrying a `sort`
argument — the shape on which all candidates survive the collection. -/
def flatSorted : SelList → Bool
  | .nil => true
  | .cons s rest =>
    (s.kind == SelKind.field) && s.name.isSome &&
      (s.arguments.find? (fun a => a.name == "sort")).isSome &&
      s.selectionSet.isNone && flatSorted rest

theorem getSortObject_leaf (f : Nat) (i : Info) (s : Selection) (p : Option String)
    (hs : s.selectionSet.isNone = true) (hf : 2 ≤ f) :
    getSortObject f (some i) (some (.cons s .nil)) p = .ok [] := by
  obtain ⟨g, rfl⟩ : ∃ g, f = g + 2 := ⟨f - 2, by omega⟩
  cases s with
  | mk k n a ss =>
    have hnone : ss = none := by
      simpa [Selection.selectionSet, Option.isNone_iff_eq_none] using hs
    subst hnone
    rfl

theorem goSort_flat (i : Info) (parent : Option String) :
    ∀ (sels : SelList) (fuel : Nat) (acc : List Candidate),
      flatSorted sels = true → 2 * sels.length + 1 ≤ fuel →
      goSort fuel i sels parent (SortAcc.arr acc) =
        .ok (SortAcc.arr (acc ++ candsOf i parent sels))
  | .nil, fuel, acc, _, hf => by
    obtain ⟨f, rfl⟩ : ∃ f, fuel = f + 1 := ⟨fuel - 1, by omega⟩
    simp [goSort, candsOf]
  | .cons s rest, fuel, acc, hflat, hf => by
    simp only [flatSorted, Bool.and_eq_true] at hflat
    obtain ⟨⟨⟨⟨hkind, hname⟩, hsort⟩, hsset⟩, hrest⟩ := hflat
    obtain ⟨sa, hsa⟩ := Option.isSome_iff_exists.mp hsort
    have hlen : SelList.length (.cons s rest) = rest.length + 1 := rfl
    rw [hlen] at hf
    obtain ⟨f, rfl⟩ : ∃ f, fuel = f + 1 := ⟨fuel - 1, by omega⟩
    cases s with
    | mk k n a ss =>
      have hk : k = SelKind.field := by
        simpa [Selection.kind] using hkind
      obtain ⟨nm, hnm⟩ := Option.isSome_iff_exists.mp (by
        simpa [Selection.name] using hname)
      have hss : ss = none := by
        simpa [Selection.selectionSet, Option.isNone_iff_eq_none] using hsset
      subst hk hnm hss
      have hsa2 : a.find? (fun x => x.name == "sort") = some sa := by
        simpa [Selection.arguments] using hsa
      simp only [goSort, Selection.name, Selection.kind, Selection.arguments, hsa2]
      rw [getSortObject_leaf f i (.mk .field (some nm) a none)
        (some (pathPre parent ++ nm)) rfl (by omega)]
      show goSort f i rest parent
        (SortAcc.arr (acc ++ [⟨pathPre parent ++ nm, sortDirection i sa.value,
          sortPriority (a.find? (fun x => x.name == "sortOrder"))⟩])) = _
      rw [goSort_flat i parent rest f _ hrest (by omega)]
      have hcand : candOf i parent (.mk .field (some nm) a none) =
          ⟨pathPre parent ++ nm, sortDirection i sa.value,
            sortPriority (a.find? (fun x => x.name == "sortOrder"))⟩ := by
        simp [candOf, Selection.name, Selection.arguments, hsa2]
      simp [candsOf, hcand]

theorem getSortObject_succ (fuel : Nat) (i : Info) (nodes : Option SelList)
    (p : Option String) :
    getSortObject (fuel + 1) (some i) nodes p =
      match goSort fuel i (collectSels (nodes.getD i.fieldNodes)) p (SortAcc.arr []) with
      | .error e => .error e
      | .ok acc => .ok (foldSorted (orderBySV acc.values)) := rfl

theorem collectSels_rootOfL (sels : SelList) : collectSels (rootOfL sels) = sels := by
  simp [rootOfL, collectSels, Selection.selectionSet, SelList.append_nil]

def infoC2 : Info := ⟨.nil, [], [("da", .vnum (-1)), ("db", .vnum 1), ("dc", .vnum 1)]⟩

def selSortA : Selection := leafField "a" [⟨"sort", .variableN "da"⟩, ⟨"sortOrder", .intN "2"⟩]
def selSortB : Selection := leafField "b" [⟨"sort", .variableN "db"⟩, ⟨"sortOrder", .intN "1"⟩]
def selSortC : Selection := leafField "c" [⟨"sort", .variableN "dc"⟩]

def sortExampleSels : SelList := .cons selSortA (.cons selSortB (.cons selSortC .nil))

def infoC2x : Info := ⟨.nil, [], [("d", .vnum 1)]⟩

def qNestedSelection : Selection :=
  .mk .field (some "q") [] (some (.cons (leafField "y" [⟨"sort", .variableN "d"⟩]) .nil))

def mixedFlatSels : SelList :=
  .cons (leafField "a" [⟨"sort", .variableN "d"⟩])
    (.cons (leafField "b" [])
      (.cons (leafField "c" [⟨"sort", .variableN "d"⟩]) .nil))

/-- C2 counterexample: the claim quantifies over every selection tree, but
a `sort`-annotated field nested under an unsorted parent contributes
nothing to the final mapping (`q { y(sort:...) }` compiles to `{}`), and
even at the top level an unsorted field in the middle of the selection
list makes the earlier candidates vanish (`a(sort), b, c(sort)` compiles
to `{c: 1}` only): the collected candidates do not all reach the
sort-and-fold stage. -/
theorem C2_claim_counterexample :
    getSortObject 30 (some infoC2x) (some (rootOf qNestedSelection)) none = .ok [] ∧
    getSortObject 30 (some infoC2x) (some (rootOfL mixedFlatSels)) none =
      .ok [("c", 1)] :=
  ⟨rfl, rfl⟩

/-- C2 as amended, restricted to the trees on which all candidates
survive: flat selections of named leaf fields that each carry a `sort`
argument. There, one candidate per field is collected (direction
`parseInt(parseValue(...)) || 1`, so unparseable directions and zero
default to `1`; priority from `sortOrder`, absent priority being
`Infinity`, the lowest precedence); the candidates are stably sorted
ascending by (priority, path, direction) — witnessed by the comparator
chain below — and folded left to right with later duplicate paths
overwriting earlier ones; in particular `a(sort:$da=-1, sortOrder:2)`,
`b(sort:$db=1, sortOrder:1)`, `c(sort:$dc=1)` compiles to the ordered
mapping `{b: 1, a: -1, c: 1}`. -/
theorem C2_sort_pipeline_amended :
    (∀ (i : Info) (parent : Option String) (sels : SelList) (fuel : Nat),
      flatSorted sels = true → 2 * sels.length + 4 ≤ fuel →
      getSortObject fuel (some i) (some (rootOfL sels)) parent =
        .ok (foldSorted (orderBySV ((candsOf i parent sels).map SVal.cand)))) ∧
    (∀ (l : List (String × Int)) (k : String) (v : Int),
      jsLookup (jsInsert l k v) k = some v) ∧
    (∀ l : List SVal, (∀ x ∈ l, x.orderKey ≠ SKey.nanK) →
      List.Chain' (fun a b => cmpSVal a b ≠ .gt) (orderBySV l)) ∧
    getSortObject 30 (some infoC2) (some (rootOfL sortExampleSels)) none =
      .ok [("b", 1), ("a", -1), ("c", 1)] := by
  refine ⟨?_, ?_, ?_, rfl⟩
  · intro i parent sels fuel hflat hfuel
    obtain ⟨f, rfl⟩ : ∃ f, fuel = f + 1 := ⟨fuel - 1, by omega⟩
    rw [getSortObject_succ, Option.getD_some, collectSels_rootOfL]
    have h2 := goSort_flat i parent sels f [] hflat (by omega)
    rw [h2]
    rfl
  · exact fun l k v => jsLookup_jsInsert_self l k v
  · exact fun l h => orderBySV_chain l h

/-- Witness for C2 at the three-field example. -/
theorem C2_sort_pipeline_amended_witness :
    getSortObject 30 (some infoC2) (some (rootOfL sortExampleSels)) none =
      .ok (foldSorted (orderBySV ((candsOf infoC2 none sortExampleSels).map SVal.cand))) ∧
    jsLookup (jsInsert [("b", (1 : Int))] "b" 2) "b" = some 2 ∧
    List.Chain' (fun a b => cmpSVal a b ≠ .gt)
      (orderBySV [SVal.cand ⟨"a", 1, SKey.inf⟩, SVal.dir 2]) :=
  ⟨C2_sort_pipeline_amended.1 infoC2 none sortExampleSels 30 rfl (by decide),
   C2_sort_pipeline_amended.2.1 [("b", (1 : Int))] "b" 2,
   C2_sort_pipeline_amended.2.2.1 [SVal.cand ⟨"a", 1, SKey.inf⟩, SVal.dir 2] (by decide)⟩

/-! ## Claim C8 — selection kinds and errors -/

/-- A node of a kind outside field/inline-fragment/fragment-spread occurs
in the processed part of the tree (fragment-spread nodes carry no
selection set of their own in real ASTs, and the compiler never descends
into one). -/
def selsHasBad : SelList → Bool
  | .nil => false
  | .cons (.mk .otherKind _ _ _) _ => true
  | .cons (.mk .fragmentSpread _ _ _) rest => selsHasBad rest
  | .cons (.mk .field _ _ (some l)) rest => selsHasBad l || selsHasBad rest
  | .cons (.mk .field _ _ none) rest => selsHasBad rest
  | .cons (.mk .inlineFragment _ _ (some l)) rest => selsHasBad l || selsHasBad rest
  | .cons (.mk .inlineFragment _ _ none) rest => selsHasBad rest

/-- Every node is of one of the three supported kinds. -/
def selsKindsAllowed : SelList → Bool
  | .nil => true
  | .cons (.mk k _ _ (some l)) rest =>
    (k != SelKind.otherKind) && selsKindsAllowed l && selsKindsAllowed rest
  | .cons (.mk k _ _ none) rest =>
    (k != SelKind.otherKind) && selsKindsAllowed rest

/-- Every node is a named field. -/
def selsFieldsOnly : SelList → Bool
  | .nil => true
  | .cons (.mk k n _ (some l)) rest =>
    (k == SelKind.field) && n.isSome && selsFieldsOnly l && selsFieldsOnly rest
  | .cons (.mk k n _ none) rest =>
    (k == SelKind.field) && n.isSome && selsFieldsOnly rest

/-- Total node count, used to bound the fuel a successful run needs. -/
def selsWeight : SelList → Nat
  | .nil => 0
  | .cons (.mk _ _ _ (some l)) rest => 1 + selsWeight l + selsWeight rest
  | .cons (.mk _ _ _ none) rest => 1 + selsWeight rest

theorem except_bind_ok {α β : Type} (a : α) (f : α → Except String β) :
    (Except.ok a >>= f) = f a := rfl

theorem except_bind_error {α β : Type} (e : String) (f : α → Except String β) :
    ((Except.error e : Except String α) >>= f) = Except.error e := rfl

theorem getFilterObject_succ (fuel : Nat) (i : Info) (nodes : Option SelList)
    (p : Option String) :
    getFilterObject (fuel + 1) (some i) nodes p =
      goFilter fuel i (collectSels (nodes.getD i.fieldNodes)) p [] := rfl

theorem goFilter_ok_noBad :
    ∀ (fuel : Nat) (i : Info) (sels : SelList) (p : Option String) (acc m : FilterObj),
      goFilter fuel i sels p acc = .ok m → selsHasBad sels = false := by
  intro fuel
  induction fuel using Nat.strong_induction_on with
  | _ fuel ih =>
    intro i sels p acc m h
    cases fuel with
    | zero => simp [goFilter] at h
    | succ f =>
      have ihg : ∀ g, g < f + 1 → ∀ (i : Info) (sels : SelList) (p : Option String)
          (acc m : FilterObj), goFilter g i sels p acc = .ok m →
          selsHasBad sels = false := fun g hg => ih g hg
      have hchild : ∀ (s : Selection) (l : SelList), s.selectionSet = some l →
          ∀ (p2 : Option String) (sub : FilterObj),
            getFilterObject f (some i) (.some (.cons s .nil)) p2 = .ok sub →
            selsHasBad l = false := by
        intro s l hss p2 sub hsub
        cases f with
        | zero => simp [getFilterObject] at hsub
        | succ g =>
          rw [getFilterObject_succ] at hsub
          have hbad := ihg g (by omega) i _ _ _ _ hsub
          simpa [collectSels, hss, SelList.append_nil] using hbad
      cases sels with
      | nil => rfl
      | cons s rest =>
        cases s with
        | mk k n a ss =>
          cases n with
          | none => simp [goFilter, Selection.name] at h
          | some nm =>
            cases k with
            | field =>
              simp only [goFilter, Selection.name, Selection.kind] at h
              cases hsub : getFilterObject f (some i)
                  (some (.cons (.mk .field (some nm) a ss) .nil))
                  (some (pathPre p ++ nm)) with
              | error e =>
                rw [hsub, except_bind_error] at h
                cases h
              | ok sub =>
                rw [hsub, except_bind_ok] at h
                have hrest := ihg f (by omega) i rest p _ m h
                cases ss with
                | none => simp [selsHasBad, hrest]
                | some l =>
                  have hl := hchild (.mk SelKind.field (some nm) a (some l)) l rfl
                    (some (pathPre p ++ nm)) sub hsub
                  simp [selsHasBad, hrest, hl]
            | inlineFragment =>
              simp only [goFilter, Selection.name, Selection.kind] at h
              cases hsub : getFilterObject f (some i)
                  (some (.cons (.mk .inlineFragment (some nm) a ss) .nil))
                  (some (pathPre p ++ nm)) with
              | error e =>
                rw [hsub, except_bind_error] at h
                cases h
              | ok sub =>
                rw [hsub, except_bind_ok] at h
                have hrest := ihg f (by omega) i rest p _ m h
                cases ss with
                | none => simp [selsHasBad, hrest]
                | some l =>
                  have hl := hchild (.mk SelKind.inlineFragment (some nm) a (some l)) l rfl
                    (some (pathPre p ++ nm)) sub hsub
                  simp [selsHasBad, hrest, hl]
            | fragmentSpread =>
              simp only [goFilter, Selection.name, Selection.kind] at h
              cases hsub : getFilterObject f (some i)
                  ((i.fragments.lookup nm).map (fun fr => SelList.cons fr SelList.nil))
                  (some (pathPre p ++ nm)) with
              | error e =>
                rw [hsub, except_bind_error] at h
                cases h
              | ok sub =>
                rw [hsub, except_bind_ok] at h
                have hrest := ihg f (by omega) i rest p _ m h
                simp [selsHasBad, hrest]
            | otherKind =>
              simp [goFilter, Selection.name, Selection.kind] at h

theorem goSort_ok_noBad :
    ∀ (fuel : Nat) (i : Info) (sels : SelList) (p : Option String) (acc m : SortAcc),
      goSort fuel i sels p acc = .ok m → selsHasBad sels = false := by
  intro fuel
  induction fuel using Nat.strong_induction_on with
  | _ fuel ih =>
    intro i sels p acc m h
    cases fuel with
    | zero => simp [goSort] at h
    | succ f =>
      have ihg : ∀ g, g < f + 1 → ∀ (i : Info) (sels : SelList) (p : Option String)
          (acc m : SortAcc), goSort g i sels p acc = .ok m →
          selsHasBad sels = false := fun g hg => ih g hg
      have hchild : ∀ (s : Selection) (l : SelList), s.selectionSet = some l →
          ∀ (p2 : Option String) (sub : List (String × Int)),
            getSortObject f (some i) (.some (.cons s .nil)) p2 = .ok sub →
            selsHasBad l = false := by
        intro s l hss p2 sub hsub
        cases f with
        | zero => simp [getSortObject] at hsub
        | succ g =>
          rw [getSortObject_succ] at hsub
          simp only [Option.getD_some] at hsub
          cases hgo : goSort g i (collectSels (SelList.cons s SelList.nil)) p2
              (SortAcc.arr []) with
          | error e => simp [hgo] at hsub
          | ok acc2 =>
            have hbad := ihg g (by omega) i _ _ _ _ hgo
            simpa [collectSels, hss, SelList.append_nil] using hbad
      cases sels with
      | nil => rfl
      | cons s rest =>
        cases s with
        | mk k n a ss =>
          cases n with
          | none => simp [goSort, Selection.name] at h
          | some nm =>
            cases k with
            | field =>
              simp only [goSort, Selection.name, Selection.kind,
                Selection.arguments] at h
              cases hfind : a.find? (fun x => x.name == "sort") with
              | none =>
                simp only [hfind] at h
                cases hsub : getSortObject f (some i)
                    (some (.cons (.mk .field (some nm) a ss) .nil)) none with
                | error e =>
                  rw [hsub, except_bind_error] at h
                  cases h
                | ok sub =>
                  rw [hsub, except_bind_ok] at h
                  have hrest := ihg f (by omega) i rest p _ m h
                  cases ss with
                  | none => simp [selsHasBad, hrest]
                  | some l =>
                    have hl := hchild (.mk SelKind.field (some nm) a (some l)) l rfl
                      none sub hsub
                    simp [selsHasBad, hrest, hl]
              | some sa =>
                simp only [hfind] at h
                cases hsub : getSortObject f (some i)
                    (some (.cons (.mk .field (some nm) a ss) .nil))
                    (some (pathPre p ++ nm)) with
                | error e =>
                  rw [hsub, except_bind_error] at h
                  cases h
                | ok sub =>
                  rw [hsub, except_bind_ok] at h
                  have hrest := ihg f (by omega) i rest p _ m h
                  cases ss with
                  | none => simp [selsHasBad, hrest]
                  | some l =>
                    have hl := hchild (.mk SelKind.field (some nm) a (some l)) l rfl
                      (some (pathPre p ++ nm)) sub hsub
                    simp [selsHasBad, hrest, hl]
            | inlineFragment =>
              simp only [goSort, Selection.name, Selection.kind] at h
              cases hsub : getSortObject f (some i)
                  (some (.cons (.mk .inlineFragment (some nm) a ss) .nil))
                  (some (pathPre p ++ nm)) with
              | error e =>
                rw [hsub, except_bind_error] at h
                cases h
              | ok sub =>
                rw [hsub, except_bind_ok] at h
                have hrest := ihg f (by omega) i rest p _ m h
                cases ss with
                | none => simp [selsHasBad, hrest]
                | some l =>
                  have hl := hchild (.mk SelKind.inlineFragment (some nm) a (some l)) l rfl
                    (some (pathPre p ++ nm)) sub hsub
                  simp [selsHasBad, hrest, hl]
            | fragmentSpread =>
              simp only [goSort, Selection.name, Selection.kind] at h
              cases hsub : getSortObject f (some i)
                  ((i.fragments.lookup nm).map (fun fr => SelList.cons fr SelList.nil))
                  (some (pathPre p ++ nm)) with
              | error e =>
                rw [hsub, except_bind_error] at h
                cases h
              | ok sub =>
                rw [hsub, except_bind_ok] at h
                have hrest := ihg f (by omega) i rest p _ m h
                simp [selsHasBad, hrest]
            | otherKind =>
              simp [goSort, Selection.name, Selection.kind] at h

theorem getFilterObject_leaf (f : Nat) (i : Info) (s : Selection) (p : Option String)
    (hs : s.selectionSet.isNone = true) (hf : 2 ≤ f) :
    getFilterObject f (some i) (some (.cons s .nil)) p = .ok [] := by
  obtain ⟨g, rfl⟩ : ∃ g, f = g + 2 := ⟨f - 2, by omega⟩
  cases s with
  | mk k n a ss =>
    have hnone : ss = none := by
      simpa [Selection.selectionSet, Option.isNone_iff_eq_none] using hs
    subst hnone
    rfl

theorem getSortObject_ok_of_goSort (g : Nat) (i : Info) (nodes : SelList)
    (p : Option String) (acc2 : SortAcc)
    (h : goSort g i (collectSels nodes) p (SortAcc.arr []) = .ok acc2) :
    getSortObject (g + 1) (some i) (some nodes) p =
      .ok (foldSorted (orderBySV acc2.values)) := by
  rw [getSortObject_succ]
  simp only [Option.getD_some, h]

theorem goFilter_fieldsOnly_ok :
    ∀ (fuel : Nat) (i : Info) (sels : SelList) (p : Option String) (acc : FilterObj),
      selsFieldsOnly sels = true → 2 * selsWeight sels + 1 ≤ fuel →
      ∃ m, goFilter fuel i sels p acc = .ok m := by
  intro fuel
  induction fuel using Nat.strong_induction_on with
  | _ fuel ih =>
    intro i sels p acc hfo hfl
    cases sels with
    | nil =>
      obtain ⟨f, rfl⟩ : ∃ f, fuel = f + 1 := ⟨fuel - 1, by omega⟩
      exact ⟨acc, rfl⟩
    | cons s rest =>
      cases s with
      | mk k n a ss =>
        cases ss with
        | none =>
          simp only [selsFieldsOnly, Bool.and_eq_true] at hfo
          obtain ⟨⟨hk, hn⟩, hrest⟩ := hfo
          have hk2 : k = SelKind.field := by simpa using hk
          obtain ⟨nm, hnm⟩ := Option.isSome_iff_exists.mp hn
          subst hk2 hnm
          have hwt : selsWeight (.cons (.mk .field (some nm) a none) rest) =
              1 + selsWeight rest := rfl
          rw [hwt] at hfl
          obtain ⟨f, rfl⟩ : ∃ f, fuel = f + 1 := ⟨fuel - 1, by omega⟩
          have hsub : getFilterObject f (some i)
              (some (.cons (.mk .field (some nm) a none) .nil))
              (some (pathPre p ++ nm)) = .ok [] :=
            getFilterObject_leaf f i _ _ rfl (by omega)
          obtain ⟨m, hm⟩ := ih f (by omega) i rest p
            (jsAssign (jsAssign acc [])
              (fieldFilterConfig i (pathPre p ++ nm) a))
            hrest (by omega)
          refine ⟨m, ?_⟩
          simp only [goFilter, Selection.name, Selection.kind]
          rw [hsub, except_bind_ok]
          exact hm
        | some l =>
          simp only [selsFieldsOnly, Bool.and_eq_true] at hfo
          obtain ⟨⟨⟨hk, hn⟩, hfchild⟩, hrest⟩ := hfo
          have hk2 : k = SelKind.field := by simpa using hk
          obtain ⟨nm, hnm⟩ := Option.isSome_iff_exists.mp hn
          subst hk2 hnm
          have hwt : selsWeight (.cons (.mk .field (some nm) a (some l)) rest) =
              1 + selsWeight l + selsWeight rest := rfl
          rw [hwt] at hfl
          obtain ⟨f, rfl⟩ : ∃ f, fuel = f + 1 := ⟨fuel - 1, by omega⟩
          obtain ⟨g, rfl⟩ : ∃ g, f = g + 1 := ⟨f - 1, by omega⟩
          have hcoll : collectSels (.cons (.mk .field (some nm) a (some l)) .nil) = l := by
            simp [collectSels, Selection.selectionSet, SelList.append_nil]
          obtain ⟨sub, hsubg⟩ := ih g (by omega) i l (some (pathPre p ++ nm)) []
            hfchild (by omega)
          have hsub : getFilterObject (g + 1) (some i)
              (some (.cons (.mk .field (some nm) a (some l)) .nil))
              (some (pathPre p ++ nm)) = .ok sub := by
            rw [getFilterObject_succ]
            simp only [Option.getD_some, hcoll]
            exact hsubg
          obtain ⟨m, hm⟩ := ih (g + 1) (by omega) i rest p
            (jsAssign (jsAssign acc sub)
              (fieldFilterConfig i (pathPre p ++ nm) a))
            hrest (by omega)
          refine ⟨m, ?_⟩
          simp only [goFilter, Selection.name, Selection.kind]
          rw [hsub, except_bind_ok]
          exact hm

theorem goSort_fieldsOnly_ok :
    ∀ (fuel : Nat) (i : Info) (sels : SelList) (p : Option String) (acc : SortAcc),
      selsFieldsOnly sels = true → 2 * selsWeight sels + 1 ≤ fuel →
      ∃ m, goSort fuel i sels p acc = .ok m := by
  intro fuel
  induction fuel using Nat.strong_induction_on with
  | _ fuel ih =>
    intro i sels p acc hfo hfl
    cases sels with
    | nil =>
      obtain ⟨f, rfl⟩ : ∃ f, fuel = f + 1 := ⟨fuel - 1, by omega⟩
      exact ⟨acc, rfl⟩
    | cons s rest =>
      cases s with
      | mk k n a ss =>
        cases ss with
        | none =>
          simp only [selsFieldsOnly, Bool.and_eq_true] at hfo
          obtain ⟨⟨hk, hn⟩, hrest⟩ := hfo
          have hk2 : k = SelKind.field := by simpa using hk
          obtain ⟨nm, hnm⟩ := Option.isSome_iff_exists.mp hn
          subst hk2 hnm
          have hwt : selsWeight (.cons (.mk .field (some nm) a none) rest) =
              1 + selsWeight rest := rfl
          rw [hwt] at hfl
          obtain ⟨f, rfl⟩ : ∃ f, fuel = f + 1 := ⟨fuel - 1, by omega⟩
          have hsub : ∀ p2, getSortObject f (some i)
              (some (.cons (.mk .field (some nm) a none) .nil)) p2 = .ok [] :=
            fun p2 => getSortObject_leaf f i _ p2 rfl (by omega)
          have hrest2 : ∀ acc2 : SortAcc, ∃ m, goSort f i rest p acc2 = .ok m :=
            fun acc2 => ih f (by omega) i rest p acc2 hrest (by omega)
          cases hfind : a.find? (fun x => x.name == "sort") with
          | none =>
            obtain ⟨m, hm⟩ := hrest2 (SortAcc.obj (jsAssign acc.toPairs
              (List.map (fun q => (q.1, SVal.dir q.2)) ([] : List (String × Int)))))
            refine ⟨m, ?_⟩
            simp only [goSort, Selection.name, Selection.kind, Selection.arguments, hfind]
            rw [hsub none, except_bind_ok]
            exact hm
          | some sa =>
            obtain ⟨m, hm⟩ := hrest2 (SortAcc.arr (acc.toArray ++
              [⟨pathPre p ++ nm, sortDirection i sa.value,
                sortPriority (a.find? (fun x => x.name == "sortOrder"))⟩]))
            refine ⟨m, ?_⟩
            simp only [goSort, Selection.name, Selection.kind, Selection.arguments, hfind]
            rw [hsub (some (pathPre p ++ nm)), except_bind_ok]
            exact hm
        | some l =>
          simp only [selsFieldsOnly, Bool.and_eq_true] at hfo
          obtain ⟨⟨⟨hk, hn⟩, hfchild⟩, hrest⟩ := hfo
          have hk2 : k = SelKind.field := by simpa using hk
          obtain ⟨nm, hnm⟩ := Option.isSome_iff_exists.mp hn
          subst hk2 hnm
          have hwt : selsWeight (.cons (.mk .field (some nm) a (some l)) rest) =
              1 + selsWeight l + selsWeight rest := rfl
          rw [hwt] at hfl
          obtain ⟨f, rfl⟩ : ∃ f, fuel = f + 1 := ⟨fuel - 1, by omega⟩
          obtain ⟨g, rfl⟩ : ∃ g, f = g + 1 := ⟨f - 1, by omega⟩
          have hcoll : collectSels (.cons (.mk .field (some nm) a (some l)) .nil) = l := by
            simp [collectSels, Selection.selectionSet, SelList.append_nil]
          have hsub : ∀ p2, ∃ sm, getSortObject (g + 1) (some i)
              (some (.cons (.mk .field (some nm) a (some l)) .nil)) p2 = .ok sm := by
            intro p2
            obtain ⟨acc2, hacc2⟩ := ih g (by omega) i l p2 (SortAcc.arr [])
              hfchild (by omega)
            refine ⟨foldSorted (orderBySV acc2.values), ?_⟩
            apply getSortObject_ok_of_goSort
            rw [hcoll]
            exact hacc2
          have hrest2 : ∀ acc2 : SortAcc, ∃ m, goSort (g + 1) i rest p acc2 = .ok m :=
            fun acc2 => ih (g + 1) (by omega) i rest p acc2 hrest (by omega)
          cases hfind : a.find? (fun x => x.name == "sort") with
          | none =>
            obtain ⟨sm, hsm⟩ := hsub none
            obtain ⟨m, hm⟩ := hrest2 (SortAcc.obj (jsAssign acc.toPairs
              (List.map (fun q => (q.1, SVal.dir q.2)) sm)))
            refine ⟨m, ?_⟩
            simp only [goSort, Selection.name, Selection.kind, Selection.arguments, hfind]
            rw [hsm, except_bind_ok]
            exact hm
          | some sa =>
            obtain ⟨sm, hsm⟩ := hsub (some (pathPre p ++ nm))
            obtain ⟨m, hm⟩ := hrest2 (SortAcc.arr (acc.toArray ++
              [⟨pathPre p ++ nm, sortDirection i sa.value,
                sortPriority (a.find? (fun x => x.name == "sortOrder"))⟩]))
            refine ⟨m, ?_⟩
            simp only [goSort, Selection.name, Selection.kind, Selection.arguments, hfind]
            rw [hsm, except_bind_ok]
            exact hm

def badKindSelection : Selection := .mk .otherKind (some "weird") [] none

def inlineOnlySelection : Selection :=
  .mk .inlineFragment none [] (some (.cons (leafField "x" []) .nil))

/-- C8 counterexample: the claim says trees containing only the three
supported kinds never make either extraction raise. But both extractions
compute `name.value` for the dotted path before switching on the node
kind, and an inline fragment — a supported kind — has no name node in a
real AST, so a tree consisting of one inline fragment over a plain field
aborts both extractions with a TypeError. -/
theorem C8_claim_counterexample :
    selsKindsAllowed (rootOf inlineOnlySelection) = true ∧
    getFilterObject 9 (some infoEmpty) (some (rootOf inlineOnlySelection)) none =
      .error nameTypeErrorMsg ∧
    getSortObject 9 (some infoEmpty) (some (rootOf inlineOnlySelection)) none =
      .error nameTypeErrorMsg :=
  ⟨rfl, rfl, rfl⟩

/-- C8 as amended: a tree containing a node of an unsupported kind never
compiles successfully in either extraction (at any fuel), and a named
unsupported node reached with the fuel to spare aborts with exactly the
`Unsuported query selection` error; conversely, trees of named plain
fields (no fragments, hence no inline fragments, whose missing name nodes
raise a TypeError — see the counterexample) always compile in both
extractions given fuel beyond twice the node count. -/
theorem C8_selection_kind_errors_amended :
    (∀ (fuel : Nat) (i : Info) (nodes : SelList) (p : Option String) (m : FilterObj),
      getFilterObject fuel (some i) (some nodes) p = .ok m →
      selsHasBad (collectSels nodes) = false) ∧
    (∀ (fuel : Nat) (i : Info) (nodes : SelList) (p : Option String)
      (m : List (String × Int)),
      getSortObject fuel (some i) (some nodes) p = .ok m →
      selsHasBad (collectSels nodes) = false) ∧
    (∀ (fuel : Nat) (i : Info) (nodes : SelList) (p : Option String),
      selsFieldsOnly (collectSels nodes) = true →
      2 * selsWeight (collectSels nodes) + 2 ≤ fuel →
      (∃ m, getFilterObject fuel (some i) (some nodes) p = .ok m) ∧
      (∃ m, getSortObject fuel (some i) (some nodes) p = .ok m)) ∧
    getFilterObject 9 (some infoEmpty) (some (rootOf badKindSelection)) none =
      .error unsupportedMsg ∧
    getSortObject 9 (some infoEmpty) (some (rootOf badKindSelection)) none =
      .error unsupportedMsg := by
  refine ⟨?_, ?_, ?_, rfl, rfl⟩
  · intro fuel i nodes p m h
    cases fuel with
    | zero => simp [getFilterObject] at h
    | succ f =>
      rw [getFilterObject_succ] at h
      simp only [Option.getD_some] at h
      exact goFilter_ok_noBad f i _ p [] m h
  · intro fuel i nodes p m h
    cases fuel with
    | zero => simp [getSortObject] at h
    | succ f =>
      rw [getSortObject_succ] at h
      simp only [Option.getD_some] at h
      cases hgo : goSort f i (collectSels nodes) p (SortAcc.arr []) with
      | error e => simp [hgo] at h
      | ok acc2 => exact goSort_ok_noBad f i _ p _ acc2 hgo
  · intro fuel i nodes p hfo hfl
    obtain ⟨f, rfl⟩ : ∃ f, fuel = f + 1 := ⟨fuel - 1, by omega⟩
    constructor
    · obtain ⟨m, hm⟩ := goFilter_fieldsOnly_ok f i (collectSels nodes) p [] hfo
        (by omega)
      refine ⟨m, ?_⟩
      rw [getFilterObject_succ]
      simp only [Option.getD_some]
      exact hm
    · obtain ⟨acc2, h2⟩ := goSort_fieldsOnly_ok f i (collectSels nodes) p
        (SortAcc.arr []) hfo (by omega)
      exact ⟨_, getSortObject_ok_of_goSort f i nodes p acc2 h2⟩

/-- Witness for C8: a successful run implies a clean tree, and a
fields-only tree compiles in both extractions. -/
theorem C8_selection_kind_errors_amended_witness :
    selsHasBad (collectSels (rootOf ageSelection)) = false ∧
    selsHasBad (collectSels (rootOfL sortExampleSels)) = false ∧
    ((∃ m, getFilterObject 20 (some infoEmpty) (some (rootOf ageSelection)) none = .ok m) ∧
     (∃ m, getSortObject 20 (some infoEmpty) (some (rootOf ageSelection)) none = .ok m)) :=
  ⟨C8_selection_kind_errors_amended.1 9 infoEmpty (rootOf ageSelection) none
    [("age", FilterVal.single ("$gt", .vnum 5))] rfl,
   C8_selection_kind_errors_amended.2.1 30 infoC2 (rootOfL sortExampleSels) none
    [("b", 1), ("a", -1), ("c", 1)] rfl,
   C8_selection_kind_errors_amended.2.2.1 20 infoEmpty (rootOf ageSelection) none
    rfl (by decide)⟩

end Graffiti
